import Mathlib

/-!
# Verification of unimodel-elasticsearch against its specification

Shallow embedding, in Lean 4, of the parts of the `unimodel-elasticsearch`
library needed to settle the spec claims:

* `Glob` — the index-name glob filter (`lib/elasticsearch-common-utils`,
  `elasticsearchGlobFilter`).
* `Joda` — the time-format helper (`lib/convert/joda.js`), together with a
  model of the moment.js formatting/parsing token grammar it relies on.
* `QueryConv` — the `$text` branch of the query converter
  (`lib/convert/query.js`).
* `Doc` — `ElasticsearchDocument.save` / `remove` (purge-before-reindex and
  removal preconditions), with the engine modelled as an oracle and the
  sequence of issued requests recorded as a trace.
* `Scroll` — the `findStream` scroll driver (`lib/elasticsearch-model.js`),
  modelled as a function of the list of engine responses.
* `Agg` — the aggregate converter (`lib/convert/aggregate.js`), both
  directions.
* `SchemaConv` — the schema-to-mapping converter (`lib/convert/schema.js`),
  over an explicit heap so that the deep-copy/no-mutation frame property is
  expressible.

JavaScript `undefined` is modelled with `Option`, JS exceptions with
`Except`, and promise chains as sequential programs (the chains in question
are sequential).  All definitions are executable.
-/

set_option maxRecDepth 4096

/-! ## Small JS-value helpers shared by several modules -/

/-- JS truthiness for string-or-undefined values: `undefined` and the empty
string are falsy, every other string truthy. -/
def jsTruthy : Option String → Bool
  | none => false
  | some s => !(s = "")

namespace Glob

/-!
Embedding of `elasticsearchGlobFilter(glob, strings)`:

```js
let regex = new RegExp(('(' + glob.replace(/,/g, ')|(') + ')').replace(/\*/g, '.*'));
let ret = [];
for (let str of strings) { if (regex.test(str)) ret.push(str); }
return ret;
```

The constructed regular expression is an alternation with one group per
comma-separated piece of the glob, in which every `*` has been replaced by
`.*`; nothing is escaped and `regex.test` is an unanchored search.  For
globs built from ordinary index-name characters (no regex metacharacters
other than the introduced `*`), the regex `(A1)|(A2)|...` tested unanchored
holds of `s` iff some alternative `Ai` matches somewhere inside `s`, and an
alternative `c0.*c1.*...*ck` matches somewhere inside `s` iff the literal
chunks `c0,...,ck` occur in `s` in order (leftmost search is complete for
this pattern shape).  The embedding below implements exactly that
semantics, with the comma split and the star split taken verbatim from the
two `replace` calls.
-/

/-- Split a character list on a separator character (the `glob.replace(/,/g, ...)`
alternation split and the `replace(/\*/g, ...)` chunk split). -/
def splitOnChar (sep : Char) : List Char → List (List Char)
  | [] => [[]]
  | c :: rest =>
    let r := splitOnChar sep rest
    if c = sep then [] :: r
    else match r with
      | [] => [[ c ]]
      | g :: gs => (c :: g) :: gs

/-- Does `pat` occur as a prefix of `s`? -/
def chunkIsPre : List Char → List Char → Bool
  | [], _ => true
  | _ :: _, [] => false
  | p :: ps, c :: cs => p = c && chunkIsPre ps cs

/-- Leftmost occurrence search: returns the remainder of `s` after the first
occurrence of `pat`, if any. -/
def findChunk (pat : List Char) : List Char → Option (List Char)
  | [] => if chunkIsPre pat [] then some (([] : List Char).drop pat.length) else none
  | c :: cs =>
    if chunkIsPre pat (c :: cs) then some ((c :: cs).drop pat.length)
    else findChunk pat cs

/-- Matching of one regex alternative `c0.*c1.*...*ck` (given by its literal
chunks) anywhere inside `s`: the chunks must occur in order. -/
def chunksMatch : List (List Char) → List Char → Bool
  | [], _ => true
  | c :: cs, s =>
    match findChunk c s with
    | none => false
    | some rest => chunksMatch cs rest

/-- `regex.test(str)` for the regex built by `elasticsearchGlobFilter`:
some comma-alternative of the glob, with `*` read as `.*`, matches
somewhere inside `str`. -/
def globRegexTest (glob : String) (str : String) : Bool :=
  (splitOnChar ',' glob.toList).any fun alt =>
    chunksMatch (splitOnChar '*' alt) str.toList

/-- `elasticsearchGlobFilter(glob, strings)`. -/
def elasticsearchGlobFilter (glob : String) (strings : List String) : List String :=
  strings.filter fun str => globRegexTest glob str

end Glob

namespace Joda

/-!
Embedding of `lib/convert/joda.js`:

```js
const JODA_ISO_STRING_FORMAT = 'yyyy-MM-ddHH:mm:ss.SSS';
const MOMENT_TO_JODA_FORMAT = 'YYYY-MM-DDHH:mm:ss.sss';
function toJodaFormat(date) { return moment(date).format(MOMENT_TO_JODA_FORMAT); }
function fromJodaFormat(jodaStr) { return moment.utc(jodaStr, MOMENT_TO_JODA_FORMAT).toISOString(); }
```

moment.js splits a format string into tokens with a maximal-munch regex
whose relevant alternatives are `YYYY`, `MM?`, `DD?`, `HH?`, `mm?`, `ss?`,
`S{1,9}` and a catch-all single character; there is no `sss` token, so the
trailing `sss` of `MOMENT_TO_JODA_FORMAT` tokenizes as `ss` followed by
`s` — both SECOND tokens (`S`, the millisecond token, is upper case).
When formatting, `ss` renders the zero-padded second and `s` the unpadded
second; when parsing, both consume one or two digits and set the second
field (last write wins), and no token of this format string ever sets the
millisecond field.  The embedding reproduces the token grammar for exactly
the characters that occur in the format strings of the source.

Dates are modelled broken-down (year/month/day/hour/minute/second/ms);
two dates are the same instant iff the fields agree.  `moment(date)` works
in the environment's local zone while `moment.utc` parses as UTC; the
environment is modelled with local time = UTC (the most favourable case
for the round-trip claim — with any other zone the round trip is broken
for every date).
-/

/-- A broken-down date value (UTC fields). -/
structure JsDate where
  year : Nat
  month : Nat
  day : Nat
  hour : Nat
  minute : Nat
  second : Nat
  ms : Nat
deriving DecidableEq, Repr

/-- moment format tokens occurring in the source's format strings. -/
inductive MTok where
  | tokYYYY
  | tokMM
  | tokDD
  | tokHH
  | tokmm
  | tokss
  | toks
  | tokLit (c : Char)
deriving DecidableEq, Repr

/-- Maximal-munch tokenization of a moment format string, restricted to the
alphabet of the source's format strings (moment's `formattingTokens`
regex: `YYYY`, `MM`, `DD`, `HH`, `mm`, `ss?`, catch-all character). -/
def momentTokenize : List Char → List MTok
  | 'Y' :: 'Y' :: 'Y' :: 'Y' :: rest => .tokYYYY :: momentTokenize rest
  | 'M' :: 'M' :: rest => .tokMM :: momentTokenize rest
  | 'D' :: 'D' :: rest => .tokDD :: momentTokenize rest
  | 'H' :: 'H' :: rest => .tokHH :: momentTokenize rest
  | 'm' :: 'm' :: rest => .tokmm :: momentTokenize rest
  | 's' :: 's' :: rest => .tokss :: momentTokenize rest
  | 's' :: rest => .toks :: momentTokenize rest
  | c :: rest => .tokLit c :: momentTokenize rest
  | [] => []

/-- Decimal digit character. -/
def digitChar (d : Nat) : Char := Char.ofNat (48 + d)

/-- Unpadded decimal rendering for the two-digit field ranges moment deals
with here (values below 100). -/
def render1or2 (n : Nat) : List Char :=
  if n < 10 then [digitChar n] else [digitChar (n / 10), digitChar (n % 10)]

/-- Zero-padded two-digit rendering (values below 100). -/
def render2 (n : Nat) : List Char :=
  [digitChar (n / 10 % 10), digitChar (n % 10)]

/-- Zero-padded four-digit rendering (values below 10000). -/
def render4 (n : Nat) : List Char :=
  [digitChar (n / 1000 % 10), digitChar (n / 100 % 10), digitChar (n / 10 % 10),
    digitChar (n % 10)]

/-- Formatting of one token (moment `format`). -/
def renderTok (d : JsDate) : MTok → List Char
  | .tokYYYY => render4 d.year
  | .tokMM => render2 d.month
  | .tokDD => render2 d.day
  | .tokHH => render2 d.hour
  | .tokmm => render2 d.minute
  | .tokss => render2 d.second
  | .toks => render1or2 d.second
  | .tokLit c => [c]

/-- `moment(date).format(fmt)` with the environment zone equal to UTC. -/
def momentFormat (fmt : String) (d : JsDate) : String :=
  ⟨(momentTokenize fmt.toList).flatMap (renderTok d)⟩

/-- The moment-side format string of the source (`MOMENT_TO_JODA_FORMAT`). -/
def MOMENT_TO_JODA_FORMAT : String := "YYYY-MM-DDHH:mm:ss.sss"

/-- The Joda-side format string the source declares to the engine
(`JODA_ISO_STRING_FORMAT`); in Joda notation `SSS` is the millisecond
fraction. -/
def JODA_ISO_STRING_FORMAT : String := "yyyy-MM-ddHH:mm:ss.SSS"

/-- `toJodaFormat(date)`. -/
def toJodaFormat (d : JsDate) : String :=
  momentFormat MOMENT_TO_JODA_FORMAT d

/-- Digit value of a character, if it is a decimal digit. -/
def digitVal (c : Char) : Option Nat :=
  if '0' ≤ c ∧ c ≤ '9' then some (c.toNat - 48) else none

/-- Greedily consume up to `k` decimal digits (at least one), returning the
value read and the remaining input (moment's `match1to2` / `match1to4`
parse regexes). -/
def takeDigits (k : Nat) (acc : Nat) (firstDone : Bool) : List Char → Option (Nat × List Char)
  | [] => if firstDone then some (acc, []) else none
  | c :: cs =>
    match k, digitVal c with
    | 0, _ => if firstDone then some (acc, c :: cs) else none
    | _, none => if firstDone then some (acc, c :: cs) else none
    | k' + 1, some d => takeDigits k' (acc * 10 + d) true cs

/-- Partially-parsed date fields (moment's parse config); fields default as
in `momentParseUTC` below. -/
structure ParseSt where
  year : Option Nat := none
  month : Option Nat := none
  day : Option Nat := none
  hour : Option Nat := none
  minute : Option Nat := none
  second : Option Nat := none
deriving Repr

/-- Parse one token (moment parse).  Numeric tokens consume one to two
digits greedily (`YYYY` up to four); both `ss` and `s` set the SECOND
field; literal characters must match (the source only parses strings it
rendered itself, where all literals match). -/
def parseTok (st : ParseSt) (input : List Char) : MTok → Option (ParseSt × List Char)
  | .tokYYYY => (takeDigits 4 0 false input).map fun (v, rest) => ({ st with year := some v }, rest)
  | .tokMM => (takeDigits 2 0 false input).map fun (v, rest) => ({ st with month := some v }, rest)
  | .tokDD => (takeDigits 2 0 false input).map fun (v, rest) => ({ st with day := some v }, rest)
  | .tokHH => (takeDigits 2 0 false input).map fun (v, rest) => ({ st with hour := some v }, rest)
  | .tokmm => (takeDigits 2 0 false input).map fun (v, rest) => ({ st with minute := some v }, rest)
  | .tokss => (takeDigits 2 0 false input).map fun (v, rest) => ({ st with second := some v }, rest)
  | .toks => (takeDigits 2 0 false input).map fun (v, rest) => ({ st with second := some v }, rest)
  | .tokLit c =>
    match input with
    | [] => none
    | c' :: rest => if c = c' then some (st, rest) else none

/-- Run a token list over the input. -/
def parseToks (st : ParseSt) (input : List Char) : List MTok → Option ParseSt
  | [] => some st
  | t :: ts =>
    match parseTok st input t with
    | none => none
    | some (st', rest) => parseToks st' rest ts

/-- `moment.utc(str, fmt)` followed by `toISOString()`, as a broken-down
UTC date.  No token of the source's format string sets the millisecond
field, so it is always 0. -/
def momentParseUTC (fmt : String) (str : String) : Option JsDate :=
  match parseToks {} str.toList (momentTokenize fmt.toList) with
  | none => none
  | some st =>
    match st.year, st.month, st.day with
    | some y, some mo, some d =>
      some { year := y, month := mo, day := d, hour := st.hour.getD 0,
             minute := st.minute.getD 0, second := st.second.getD 0, ms := 0 }
    | _, _, _ => none

/-- `fromJodaFormat(jodaStr)` (result expressed as the broken-down UTC
instant the returned ISO string denotes). -/
def fromJodaFormat (jodaStr : String) : Option JsDate :=
  momentParseUTC MOMENT_TO_JODA_FORMAT jodaStr

end Joda

namespace QueryConv

/-!
Embedding of the `$text` path of `lib/convert/query.js`:

```js
function getFieldIndexes(model, schema, field) {
  let fieldIndexes = [];
  try {
    let defaultIndex = schema.getSubschemaData(field).index;
    if (defaultIndex !== undefined) fieldIndexes.push(defaultIndex);
  } catch (err) {
    throw new QueryValidationError(`Could not find field ${field} in schema`, ...);
  }
  for (let index of model.extraIndexes) {
    if (index.field === field) fieldIndexes.push(index.index);
  }
  return fieldIndexes;
}

function ensureTextMatchField(model, schema, field) {
  let indexes = getFieldIndexes(model, schema, field);
  if (!indexes || _.contains(indexes, 'analyzed')) {
    throw new QueryValidationError(`Field is indexed for text match: ${field}`);
  }
  return field;
}
```

and the `$text` branch of `operatorExpressionToFilters`:

```js
if (exprKey === '$text') {
  esFilter = { query: { match: {
    [`${resultKey(resultKeyPre, ensureTextMatchField(model, schema, queryKey))}`]: {
      query: exprVal, operator: 'and'
    } } } };
}
```

`getFieldIndexes` always returns an array (never null/undefined), so the
`!indexes` disjunct of `ensureTextMatchField` is vacuous; the effective
condition is exactly membership of the string `'analyzed'` in the
collected index values.  A schema field whose `index` property is
`undefined` contributes nothing; any other value (booleans, strings) is
pushed as-is, and `_.contains` compares with strict equality, so only the
exact string `'analyzed'` triggers the throw.
-/

/-- A JS `index` property value: `undefined`, a boolean, or a string. -/
inductive JsIdx where
  | undef
  | bool (b : Bool)
  | str (s : String)
deriving DecidableEq, Repr

/-- The per-field schema data the converter reads (`getSubschemaData`
result): just the `index` property matters here. -/
structure FieldSchema where
  index : JsIdx
deriving DecidableEq, Repr

/-- A schema as a finite map from dotted field path to subschema data;
a missing entry models `getSubschemaData` throwing. -/
abbrev Schema := List (String × FieldSchema)

/-- One entry of a model's `extraIndexes` list. -/
structure ExtraIndex where
  field : String
  index : JsIdx
deriving DecidableEq, Repr

/-- The slice of an `ElasticsearchModel` the query converter touches. -/
structure ModelQ where
  extraIndexes : List ExtraIndex
deriving Repr

/-- `QueryValidationError` (from the portable query grammar). -/
structure QueryValidationError where
  message : String
deriving DecidableEq, Repr

/-- `getFieldIndexes(model, schema, field)`. -/
def getFieldIndexes (model : ModelQ) (schema : Schema) (field : String) :
    Except QueryValidationError (List JsIdx) :=
  match schema.lookup field with
  | none => .error ⟨"Could not find field " ++ field ++ " in schema"⟩
  | some sub =>
    let base := match sub.index with
      | .undef => []
      | v => [v]
    .ok (base ++ (model.extraIndexes.filter (fun i => i.field = field)).map (·.index))

/-- `ensureTextMatchField(model, schema, field)`; the `!indexes` disjunct of
the source is vacuous (see module comment). -/
def ensureTextMatchField (model : ModelQ) (schema : Schema) (field : String) :
    Except QueryValidationError String := do
  let indexes ← getFieldIndexes model schema field
  if indexes.contains (.str "analyzed") then
    .error ⟨"Field is indexed for text match: " ++ field⟩
  else
    .ok field

/-- `ensureExactMatchField(model, schema, field)` (for contrast with the
text-match variant; `_parent` is special-cased as always indexed). -/
def ensureExactMatchField (model : ModelQ) (schema : Schema) (field : String) :
    Except QueryValidationError String :=
  if field = "_parent" then .ok field
  else do
    let indexes ← getFieldIndexes model schema field
    if indexes.isEmpty then
      .error ⟨"Field is not indexed: " ++ field⟩
    else
      .ok field

/-- `resultKey(prefix, key)`. -/
def resultKey (pre : Option String) (key : String) : String :=
  match pre with
  | some p => if p = "" then key else p ++ "." ++ key
  | none => key

/-- The engine filter produced by the `$text` branch:
`{ query: { match: { field: { query, operator: 'and' } } } }`. -/
structure TextMatchFilter where
  field : String
  query : String
  operator : String
deriving DecidableEq, Repr

/-- The `$text` branch of `operatorExpressionToFilters`. -/
def textExprToFilter (model : ModelQ) (schema : Schema) (keyPre : Option String)
    (queryKey : String) (exprVal : String) :
    Except QueryValidationError TextMatchFilter := do
  let f ← ensureTextMatchField model schema queryKey
  .ok { field := resultKey keyPre f, query := exprVal, operator := "and" }

end QueryConv

namespace Doc

/-!
Embedding of `ElasticsearchDocument.save()` and `remove()`
(`lib/elasticsearch-document.js`).

The promise chains of both methods are sequential, so they are modelled as
sequential programs.  The engine client and the model's lifecycle hooks
are an oracle (`DocEnv`); every engine request the method issues is
recorded, in order, in a trace, so that ordering properties ("the purge
delete precedes the index request") are expressible.  The document data
payload is opaque (`DocData`): none of the verified properties depend on
its contents, and schema normalization is part of the oracle.
-/

/-- Opaque document payload. -/
abbrev DocData := String

/-- A JS string-or-undefined value. -/
abbrev JsStr := Option String

/-- The document's internal metadata block (`this.fields`). -/
structure DocFields where
  id : JsStr := none
  routing : JsStr := none
  index : JsStr := none
  parent : JsStr := none
deriving DecidableEq, Repr

/-- Document state (the fields of `ElasticsearchDocument` the two methods
read and write). -/
structure EsDocument where
  data : DocData
  fields : DocFields
  originalData : Option DocData
  originalFields : Option DocFields
deriving DecidableEq, Repr

/-- A coded error (XError / ElasticsearchError). -/
structure EsError where
  code : String
  message : String
deriving DecidableEq, Repr

/-- Parameters of a `client.delete` call. -/
structure DeleteParams where
  type : String
  id : JsStr
  index : JsStr
  routing : JsStr
  parent : JsStr
deriving DecidableEq, Repr

/-- Parameters of a `client.index` call (the identity-relevant subset plus
the body; the `fields` echo request and the save options are forwarded to
the oracle unchanged and play no role in the verified properties). -/
structure IndexParams where
  type : String
  id : JsStr
  index : JsStr
  parent : JsStr
  routing : JsStr
  body : DocData
  consistency : JsStr
  refresh : Bool
  replication : String
deriving DecidableEq, Repr

/-- One engine request issued by a document method. -/
inductive ESRequest where
  | deleteReq (p : DeleteParams)
  | indexReq (p : IndexParams)
deriving DecidableEq, Repr

/-- The engine's answer to a successful `client.index` call. -/
structure IndexResponse where
  id : String
  index : String
  parentEcho : JsStr
  routingEcho : JsStr
deriving DecidableEq, Repr

/-- The `_id.path` / `_parent` slice of the model's mapping that `save` and
`remove` consult. -/
structure MappingInfo where
  idPath : Option String
  hasParent : Bool
deriving Repr

/-- Oracle for everything outside the document: engine call results,
lifecycle hooks, schema normalization and the model's default index. -/
structure DocEnv where
  typeName : String
  mapping : MappingInfo
  defaultIndexName : String
  normalize : DocData → Except EsError DocData
  getPath : DocData → String → JsStr
  hook : String → Except EsError Unit
  deleteResult : DeleteParams → Except EsError Unit
  indexResult : IndexParams → Except EsError IndexResponse

/-- `opts` accepted by `save`. -/
structure SaveOpts where
  consistency : JsStr := none
  refresh : Bool := false
  replication : JsStr := none
deriving Repr

/-- Save option validation (the two synchronous `XError.INVALID_ARGUMENT`
throws at the top of `save`). -/
def validateSaveOpts (opts : SaveOpts) : Except EsError Unit :=
  if jsTruthy opts.consistency ∧
      ¬ (opts.consistency = some "one" ∨ opts.consistency = some "quorum" ∨
        opts.consistency = some "all") then
    .error ⟨"invalid_argument", "Save consistency options must be one of: quorum, one, all"⟩
  else if jsTruthy opts.replication ∧
      ¬ (opts.replication = some "sync" ∨ opts.replication = some "async") then
    .error ⟨"invalid_argument", "Replication types must be one of: sync, async"⟩
  else
    .ok ()

/-- The internal-field defaulting step of `save` (derive the id from the
mapping's `_id.path` when unset; default the routing to the parent id for
child types, else to the internal id; adopt the model's default index name
when no index is set). -/
def applyFieldDefaults (env : DocEnv) (normalizedData : DocData) (f : DocFields) : DocFields :=
  let f1 :=
    if ¬ jsTruthy f.id then
      match env.mapping.idPath with
      | some p => { f with id := env.getPath normalizedData p }
      | none => f
    else f
  let f2 :=
    if ¬ jsTruthy f1.routing then
      if env.mapping.hasParent ∧ jsTruthy f1.parent then
        { f1 with routing := f1.parent }
      else
        { f1 with routing := f1.id }
    else f1
  if ¬ jsTruthy f2.index then { f2 with index := some env.defaultIndexName } else f2

/-- The purge condition of `save`:

```js
let internalFields = [ 'id', 'routing', 'index', 'parent' ];
let needsPurged = !!this._originalFields && _.any(internalFields, (field) => {
  return (this._originalFields[field] && this.fields[field] !== this._originalFields[field]);
});
```

Note the first conjunct inside `_.any`: a field only forces a purge when
its ORIGINAL value is truthy (set and non-empty) and differs from the
current value. -/
def needsPurged (originalFields : Option DocFields) (f : DocFields) : Bool :=
  match originalFields with
  | none => false
  | some og =>
    (jsTruthy og.id && !(f.id = og.id)) ||
    (jsTruthy og.routing && !(f.routing = og.routing)) ||
    (jsTruthy og.index && !(f.index = og.index)) ||
    (jsTruthy og.parent && !(f.parent = og.parent))

/-- The delete request the purge issues (original coordinates). -/
def purgeParams (env : DocEnv) (og : DocFields) : DeleteParams :=
  { type := env.typeName, id := og.id, index := og.index,
    routing := og.routing, parent := og.parent }

/-- The index (upsert) request `save` issues. -/
def indexParams (env : DocEnv) (f : DocFields) (normalizedData : DocData)
    (opts : SaveOpts) : IndexParams :=
  { type := env.typeName, id := f.id, index := f.index, parent := f.parent,
    routing := f.routing, body := normalizedData, consistency := opts.consistency,
    refresh := opts.refresh, replication := opts.replication.getD "sync" }

/-- `ElasticsearchDocument.save(opts)`: the sequential interpretation of
the promise chain, returning the outcome together with the ordered trace
of engine requests issued. -/
def save (env : DocEnv) (doc : EsDocument) (opts : SaveOpts) :
    Except EsError EsDocument × List ESRequest :=
  match validateSaveOpts opts with
  | .error e => (.error e, [])
  | .ok _ =>
  match env.hook "pre-normalize" with
  | .error e => (.error e, [])
  | .ok _ =>
  match env.normalize doc.data with
  | .error e => (.error e, [])
  | .ok normalizedData =>
  let f := applyFieldDefaults env normalizedData doc.fields
  match env.hook "post-normalize" with
  | .error e => (.error e, [])
  | .ok _ =>
  match env.hook "pre-save" with
  | .error e => (.error e, [])
  | .ok _ =>
  let purgeTrace : List ESRequest :=
    match doc.originalFields with
    | some og => if needsPurged doc.originalFields f then [.deleteReq (purgeParams env og)] else []
    | none => []
  let purgeOutcome : Except EsError Unit :=
    match doc.originalFields with
    | some og =>
      if needsPurged doc.originalFields f then env.deleteResult (purgeParams env og) else .ok ()
    | none => .ok ()
  match purgeOutcome with
  | .error e => (.error e, purgeTrace)
  | .ok _ =>
  let ip := indexParams env f normalizedData opts
  match env.indexResult ip with
  | .error e => (.error e, purgeTrace ++ [.indexReq ip])
  | .ok resp =>
  let f' : DocFields :=
    let a := { f with id := some resp.id, index := some resp.index }
    let b := match resp.parentEcho with
      | some p => { a with parent := some p }
      | none => a
    match resp.routingEcho with
    | some r => { b with routing := some r }
    | none => b
  let doc' : EsDocument :=
    { data := doc.data, fields := f', originalData := some doc.data,
      originalFields := some f' }
  match env.hook "post-save" with
  | .error e => (.error e, purgeTrace ++ [.indexReq ip])
  | .ok _ => (.ok doc', purgeTrace ++ [.indexReq ip])

/-- `ElasticsearchDocument.remove()`: sequential interpretation with a
request trace.  The routing-defaulting step mutates `_originalFields` in
place before the delete is issued. -/
def remove (env : DocEnv) (doc : EsDocument) :
    Except EsError EsDocument × List ESRequest :=
  match doc.originalData, doc.originalFields with
  | none, _ =>
    (.error ⟨"db_error", "Cannot remove document that did not originally exist."⟩, [])
  | _, none =>
    (.error ⟨"db_error", "Cannot remove document that did not originally exist."⟩, [])
  | some od, some og =>
  if ¬ jsTruthy og.id ∨ ¬ jsTruthy og.index then
    (.error ⟨"db_error", "Cannot remove document without internal ID or index fields"⟩, [])
  else
  let og' :=
    if ¬ jsTruthy og.routing then
      if env.mapping.hasParent ∧ jsTruthy og.parent then
        { og with routing := og.parent }
      else
        { og with routing := og.id }
    else og
  match env.hook "pre-remove" with
  | .error e => (.error e, [])
  | .ok _ =>
  let dp : DeleteParams :=
    { type := env.typeName, id := og'.id, index := og'.index,
      routing := og'.routing, parent := og'.parent }
  match env.deleteResult dp with
  | .error e => (.error e, [.deleteReq dp])
  | .ok _ =>
  match env.hook "post-remove" with
  | .error e => (.error e, [.deleteReq dp])
  | .ok _ =>
    (.ok { doc with originalData := none, originalFields := none, data := od },
      [.deleteReq dp])

end Doc

namespace Scroll

/-!
Embedding of the scroll driver inside `findStream`
(`lib/elasticsearch-model.js`):

```js
const limit = _.isNumber(options.limit) ? options.limit : -1;
...
let isDone = false, progress = 0, scrollId = null;
return pasync.whilst(() => !isDone, () => {
  let scrollPromise = scrollId ? client.scroll({ scrollId, scroll })
                               : client.search(searchParams);   // size = scrollSize || 100
  return scrollPromise.then((resp) => {
    let hits = objtools.getPath(resp, 'hits.hits') || [];
    if (!scrollId) {
      docStream.setTotal(objtools.getPath(resp, 'hits.total') || 0);
    } else if (!hits.length) {
      isDone = true;
      return Promise.resolve();
    }
    scrollId = resp._scroll_id;
    return pasync.each(hits, (hit) => write hit; progress++).then(() => {
      isDone = limit > 0 && (progress >= limit);
    });
  });
}).catch((err) => {
  if (!scrollId) { return Promise.reject(err); }
  return client.clearScroll({ scrollId }).then(() => Promise.reject(err));
});
```

The loop is strictly sequential: it issues exactly one search/scroll
request per iteration and the next iteration starts only after the current
batch has been fully written.  The engine is therefore modelled as the
list of responses the successive search/scroll requests receive (`.ok` a
response object, `.error` a request failure), plus an outcome function for
the (at most one) `clearScroll` request.  Every hit written to the
document stream counts as one emitted document (the stream converts each
raw hit into one Document); stream writes are assumed to succeed, and an
exhausted response list marks the point where the model would need more
engine input.

Note, from the source: on an error the `.catch` handler issues the
best-effort `clearScroll` and chains `.then(() => Promise.reject(err))` —
a REJECTION of `clearScroll` is not caught, so in that case the
`clearScroll` failure, not the original error, propagates.
-/

/-- A raw engine hit (opaque — each one becomes one streamed Document). -/
abbrev Hit := Nat

/-- An engine error. -/
structure EngineError where
  message : String
deriving DecidableEq, Repr

/-- A successful search/scroll response: `hits.hits`, `_scroll_id` and
`hits.total` (the latter two as read with `objtools.getPath`, so absent
values are modelled with `Option` / the `|| 0` default applied by the
driver is folded into `total`). -/
structure ScrollResp where
  hits : List Hit
  scrollId : Option String
  total : Nat
deriving DecidableEq, Repr

/-- A request issued by the driver. -/
inductive ScrollReq where
  | search
  | scrollNext (id : String)
  | clearScroll (id : String)
deriving DecidableEq, Repr

deriving instance DecidableEq for Except

/-- The observable result of a driver run: the documents emitted through
the stream, the ordered requests issued, the published total (if the first
response arrived) and the final outcome (`.ok` normal end, `.error` the
error emitted on the stream). -/
structure DriverRun where
  emitted : List Hit
  requests : List ScrollReq
  total : Option Nat
  outcome : Except EngineError Unit
deriving DecidableEq, Repr

/-- The marker outcome used when the modelled response list is exhausted
while the driver still wants to issue a request. -/
def exhausted : EngineError := ⟨"model: response list exhausted"⟩

/-- The search/scroll request of one iteration. -/
def iterReq : Option String → ScrollReq
  | none => .search
  | some sid => .scrollNext sid

/-- One run of the `pasync.whilst` scroll loop, starting from progress
`progress` and cursor `scrollId` (`none` = the initial search has not
happened yet), consuming one engine response per iteration.  `clear`
gives the outcome of a `clearScroll` request. -/
def scrollLoop (clear : String → Except EngineError Unit) (limit : Int) :
    Nat → Option String → List (Except EngineError ScrollResp) → DriverRun
  | _, scrollId, [] =>
    { emitted := [], requests := [iterReq scrollId], total := none, outcome := .error exhausted }
  | progress, scrollId, r :: rest =>
    let req := iterReq scrollId
    match r with
    | .error e =>
      match scrollId with
      | none => { emitted := [], requests := [req], total := none, outcome := .error e }
      | some sid =>
        match clear sid with
        | .ok _ =>
          { emitted := [], requests := [req, .clearScroll sid], total := none,
            outcome := .error e }
        | .error e2 =>
          { emitted := [], requests := [req, .clearScroll sid], total := none,
            outcome := .error e2 }
    | .ok resp =>
      let firstResp := scrollId = none
      if firstResp ∨ ¬ resp.hits.isEmpty then
        -- setTotal on the first response; then write every hit of the batch,
        -- update the cursor, and re-check the limit.
        let progress' := progress + resp.hits.length
        let batchTotal := if firstResp then some resp.total else none
        if limit > 0 ∧ (progress' : Int) ≥ limit then
          { emitted := resp.hits, requests := [req], total := batchTotal, outcome := .ok () }
        else
          let sub := scrollLoop clear limit progress' resp.scrollId rest
          { emitted := resp.hits ++ sub.emitted, requests := req :: sub.requests,
            total := batchTotal <|> sub.total, outcome := sub.outcome }
      else
        -- continuation response with an empty batch: normal end of data.
        { emitted := [], requests := [req], total := none, outcome := .ok () }

/-- The full driver: `limit` is `options.limit` when it is a number and
`-1` otherwise. -/
def findStreamDriver (optLimit : Option Int) (clear : String → Except EngineError Unit)
    (responses : List (Except EngineError ScrollResp)) : DriverRun :=
  scrollLoop clear (optLimit.getD (-1)) 0 none responses

end Scroll

namespace Agg

/-!
Embedding of `lib/convert/aggregate.js`: `convertAggregate` (specification
to engine aggregation) and `convertAggregateResult` /
`convertBucketResults` / `convertMetricResults` / `extractResultKey`
(engine response back to the portable result shape).

A portable group-by entry is classified by the portable grammar's own
resolver (`getGroupTypeName`); the classification is part of the
aggregate object here (`Group.typeName`).  The portable grammar
normalizes an interval group-by so that a duration-string interval goes
with a date base and a numeric interval with a numeric base; `isNaN` on a
duration string is true and on a number false, which `IntervalSpec`
captures by construction.  `moment.duration(str).as('seconds')` belongs
to the vendored date library and enters as the oracle `durSeconds`.
-/

/-- An interval group-by's interval/base data (see module comment). -/
inductive IntervalSpec where
  | num (n : Int) (base : Option Int)
  | dur (iso : String) (base : Option Joda.JsDate)
deriving DecidableEq, Repr

/-- One entry of a range group-by's `ranges` list; the grammar keeps the
boundaries of one group-by homogeneous, so a range list is either all
dates or all numbers (`_.isDate(group.ranges[0].start || group.ranges[0].end)`
picks the branch). -/
inductive RangeList where
  | dates (rs : List (Option Joda.JsDate × Option Joda.JsDate))
  | nums (rs : List (Option Int × Option Int))
deriving DecidableEq, Repr

/-- One `groupBy` entry with its grammar classification. -/
structure Group where
  typeName : String
  field : String
  ranges : Option RangeList := none
  interval : Option IntervalSpec := none
  timeComponent : Option String := none
  timeComponentCount : Option Nat := none
deriving DecidableEq, Repr

/-- The data of a portable aggregate: requested stats (field to requested
stat names), the total flag and the ordered `groupBy` list. -/
structure AggData where
  stats : List (String × List String) := []
  total : Bool := false
  groupBy : List Group := []
deriving DecidableEq, Repr

/-- `AggregateValidationError` (from the portable grammar). -/
structure AggValidationError where
  message : String
deriving DecidableEq, Repr

/-- One engine bucket aggregation produced by `buildBuckets`. -/
inductive ESAgg where
  | terms (field : String)
  | dateRange (field : String) (ranges : List (Option String × Option String)) (format : String)
  | numRange (field : String) (ranges : List (Option Int × Option Int))
  | dateHistogram (field : String) (interval : String) (extendedBoundsMin : Option String)
      (format : Option String)
  | histogram (field : String) (interval : Int) (extendedBoundsMin : Option Int)
deriving DecidableEq, Repr

/-- `TIME_UNIT_MAP`. -/
def TIME_UNIT_MAP : List (String × String) :=
  [("year", "Y"), ("month", "M"), ("week", "w"), ("day", "d"), ("hour", "h"),
    ("minute", "m"), ("second", "s")]

/-- JS number-to-string for the non-negative integers used in interval
strings. -/
def intToString (n : Int) : String :=
  if n < 0 then "-" ++ toString n.natAbs else toString n.natAbs

/-- `buildBuckets(aggregate)`: one engine bucket aggregation per `groupBy`
entry.  `durSeconds` is `moment.duration(str).as('seconds')`. -/
def buildBuckets (durSeconds : String → Int) :
    List Group → Except AggValidationError (List ESAgg)
  | [] => .ok []
  | group :: rest => do
    let tail ← buildBuckets durSeconds rest
    match group.typeName with
    | "field" => .ok (.terms group.field :: tail)
    | "range" =>
      match group.ranges with
      | none => .ok tail            -- _.isEmpty(group.ranges): the group is skipped
      | some (.dates []) => .ok tail
      | some (.nums []) => .ok tail
      | some (.dates rs) =>
        -- every boundary is a date: date_range, boundaries in Joda format,
        -- with the Joda format string declared on the aggregation.
        let ranges := rs.map fun (s, e) =>
          (s.map Joda.toJodaFormat, e.map Joda.toJodaFormat)
        .ok (.dateRange group.field ranges Joda.JODA_ISO_STRING_FORMAT :: tail)
      | some (.nums rs) =>
        -- numeric range; a `start`/`end` of 0 is falsy in JS and is dropped
        -- just like an absent boundary.
        let ranges := rs.map fun (s, e) =>
          ((s.bind fun n => if n = 0 then none else some n),
            (e.bind fun n => if n = 0 then none else some n))
        .ok (.numRange group.field ranges :: tail)
    | "interval" =>
      match group.interval with
      | some (.dur iso base) =>
        -- isNaN(interval): date histogram, interval rendered in seconds;
        -- a base becomes extended_bounds.min (no validation error!).
        .ok (.dateHistogram group.field (intToString (durSeconds iso) ++ "s")
          (base.map Joda.toJodaFormat) (some Joda.JODA_ISO_STRING_FORMAT) :: tail)
      | some (.num n base) =>
        -- numeric histogram; a base becomes extended_bounds.min.
        .ok (.histogram group.field n base :: tail)
      | none =>
        -- isNaN(undefined) is true: the date-histogram branch runs with an
        -- undefined interval; excluded by grammar validation upstream,
        -- modelled as the date branch with an empty duration.
        .ok (.dateHistogram group.field (intToString (durSeconds "") ++ "s")
          none (some Joda.JODA_ISO_STRING_FORMAT) :: tail)
    | "time-component" =>
      match TIME_UNIT_MAP.lookup (group.timeComponent.getD "") with
      | none =>
        .error ⟨"Could not convert time component into a valid ElasticSearch Time Unit"⟩
      | some unit =>
        let count := (group.timeComponentCount.getD 1)
        .ok (.dateHistogram group.field (toString count ++ unit) none none :: tail)
    | _ => .ok tail                 -- unknown classification: no bucket is pushed

/-- The metrics block: one `stats` sub-aggregation per requested stat
field, keyed `|field` (`buildMetrics`). -/
def buildMetrics (aggr : AggData) : Option (List (String × String)) :=
  if aggr.stats.isEmpty then none
  else some (aggr.stats.map fun (field, _) => ("|" ++ field, field))

/-- The shape `convertAggregate` returns: either a single `global`
aggregation carrying the metrics, or the outermost bucket aggregation of
the recursively nested chain (each bucket's `aggregations.aggregate` is
the next bucket, the innermost carrying the metrics); the chain is
represented by the ordered list of its buckets. -/
inductive ESAggResult where
  | globalAgg (metrics : Option (List (String × String)))
  | bucketChain (buckets : List ESAgg) (metrics : Option (List (String × String)))
deriving DecidableEq, Repr

/-- `convertAggregate(aggregate)`. -/
def convertAggregate (durSeconds : String → Int) (aggr : AggData) :
    Except AggValidationError ESAggResult := do
  let metrics := buildMetrics aggr
  let buckets ← buildBuckets durSeconds aggr.groupBy
  if buckets.isEmpty then
    .ok (.globalAgg metrics)
  else
    .ok (.bucketChain buckets metrics)

/-! ### Result conversion -/

/-- A raw bucket key (`bucket.key`): string or number. -/
inductive AkVal where
  | s (x : String)
  | n (x : Int)
deriving DecidableEq, Repr

/-- A metric object (`stats` sub-aggregation result): stat name to value.
Numeric values are modelled as integers; their numeric type is irrelevant
to the verified properties. -/
structure StatsObj where
  entries : List (String × Int)
deriving DecidableEq, Repr

/-- Which property held a node's sub-buckets: none
(`!buckets` — the node is a leaf), the node's own `buckets` property, or
`aggregate.buckets` of the nested aggregation. -/
inductive BucketsShape where
  | missing
  | own
  | nested
deriving DecidableEq, Repr

/-- One node of an engine aggregation response: `doc_count`, `key`,
`key_as_string`, the sub-buckets (see `BucketsShape`) and the enumerable
metric properties (`|field` keys).  The non-object properties
(`doc_count`, `key`, ...) that the `for key in metricResults` loop also
visits are skipped by its `_.isEmpty` guard (lodash `isEmpty` is true for
numbers and short-circuits them), so only the metric objects are kept
here. -/
inductive AggNode where
  | mk (docCount : Int) (key : Option AkVal) (keyAsString : Option String)
      (shape : BucketsShape) (subs : List AggNode)
      (metricEntries : List (String × StatsObj))
deriving Repr

def AggNode.docCount : AggNode → Int
  | .mk dc _ _ _ _ _ => dc

def AggNode.key : AggNode → Option AkVal
  | .mk _ k _ _ _ _ => k

def AggNode.keyAsString : AggNode → Option String
  | .mk _ _ ks _ _ _ => ks

def AggNode.shape : AggNode → BucketsShape
  | .mk _ _ _ sh _ _ => sh

def AggNode.subs : AggNode → List AggNode
  | .mk _ _ _ _ su _ => su

def AggNode.metricEntries : AggNode → List (String × StatsObj)
  | .mk _ _ _ _ _ me => me

/-- `bucketResult.buckets || bucketResult.aggregate && bucketResult.aggregate.buckets`. -/
def resolvedBuckets (nd : AggNode) : Option (List AggNode) :=
  match nd.shape with
  | .missing => none
  | .own => some nd.subs
  | .nested => some nd.subs

/-- A group key extracted from a bucket (`extractResultKey` result).
`null`/`undef` are the JS values that suppress the `keys.unshift`;
`invalidDate` stands for `fromJodaFormat` applied to an unparseable or
absent `key_as_string` (moment then yields an environment-dependent
value), and `nan` for `parseInt` failing — both are excluded by the
well-formedness hypothesis of the theorems. -/
inductive RKey where
  | null
  | undef
  | raw (v : AkVal)
  | idx (i : Int)
  | date (d : Joda.JsDate)
  | invalidDate
  | num (n : Int)
  | nan
deriving DecidableEq, Repr

/-- JS `parseInt` on a decimal string: optional sign followed by at least
one leading digit. -/
def jsParseInt (s : String) : Option Int :=
  let core : List Char → Option Nat := fun cs =>
    let digits := cs.takeWhile (fun c => '0' ≤ c ∧ c ≤ '9')
    if digits.isEmpty then none
    else some (digits.foldl (fun a c => a * 10 + (c.toNat - 48)) 0)
  match s.toList with
  | '-' :: rest => (core rest).map fun n => -(n : Int)
  | '+' :: rest => (core rest).map fun n => (n : Int)
  | cs => (core cs).map fun n => (n : Int)

/-- The date-key branches of `extractResultKey`
(`fromJodaFormat(aggregateResult.key_as_string)`). -/
def dateKeyOf (nd : AggNode) : RKey :=
  match nd.keyAsString with
  | some s =>
    match Joda.fromJodaFormat s with
    | some d => .date d
    | none => .invalidDate
  | none => .invalidDate

/-- `extractResultKey(aggregateResult, aggregate, groupByIdx, bucketIdx)`.
A negative or out-of-range `groupByIdx` reads `aggrData.groupBy[groupByIdx]`
as `undefined`, which the source returns as the `null` key. -/
def extractResultKey (groupBy : List Group) (nd : AggNode) (gIdx : Int) (bIdx : Int) : RKey :=
  if 0 ≤ gIdx then
    match groupBy[gIdx.toNat]? with
    | none => .null
    | some group =>
    match group.typeName with
    | "field" =>
      match nd.key with
      | some v => .raw v
      | none => .undef
    | "range" => .idx bIdx
    | "interval" =>
      match group.interval with
      | some (.num _ _) =>
        -- parseInt(aggregateResult.key)
        match nd.key with
        | some (.n k) => .num k
        | some (.s s) =>
          match jsParseInt s with
          | some k => .num k
          | none => .nan
        | none => .nan
      | _ => dateKeyOf nd           -- isNaN(interval): date-based interval
    | "time-component" => dateKeyOf nd
    | _ =>
      match nd.key with
      | some v => .raw v
      | none => .undef
  else
    .null

/-- One entry of the converted result: unpacked stats, optional total and
the group-key list. -/
structure ConvEntry where
  stats : List (String × List (String × Int))
  total : Option Int
  keys : List RKey
deriving DecidableEq, Repr

/-- `convertMetricResults(metricResults, aggregate, groupByIdx, bucketIdx)`. -/
def convertMetricResults (aggr : AggData) (nd : AggNode) (gIdx : Int) (bIdx : Int) : ConvEntry :=
  let stats := nd.metricEntries.filterMap fun (key, mr) =>
    if mr.entries.isEmpty then none
    else
      let field := key.drop 1
      match aggr.stats.lookup field with
      | none => none                -- _.isEmpty(fieldStats)
      | some reqStats =>
        if reqStats.isEmpty then none
        else some (field, mr.entries.filter fun (st, _) => reqStats.contains st)
  { stats := stats,
    total := if aggr.total then some nd.docCount else none,
    keys := [extractResultKey aggr.groupBy nd gIdx bIdx] }

/-- The JS return value of `convertBucketResults`: an array for a node
with buckets, a single object for a leaf. -/
inductive BucketOut where
  | one (e : ConvEntry)
  | arr (es : List ConvEntry)
deriving DecidableEq, Repr

/-- `if (!_.isArray(groups)) { groups = [ groups ]; }` -/
def BucketOut.toList : BucketOut → List ConvEntry
  | .one e => [e]
  | .arr es => es

mutual

/-- `convertBucketResults(bucketResult, aggregate, groupByIdx, bucketIdx)`:
a node without (or with empty) resolved buckets is a leaf; otherwise the
node's own key is extracted and, for every sub-bucket with a positive
document count (zero-count buckets are dropped), the recursive results are
collected with that key unshifted onto each of their key lists (the
`key !== null && key !== undefined` guard suppressing the unshift). -/
def convertBucketResults (aggr : AggData) : AggNode → Int → Int → BucketOut
  | .mk dc k ks shape subs me, gIdx, bIdx =>
    match shape, subs with
    | .missing, _ => .one (convertMetricResults aggr (.mk dc k ks shape subs me) gIdx bIdx)
    | .own, [] => .one (convertMetricResults aggr (.mk dc k ks shape subs me) gIdx bIdx)
    | .nested, [] => .one (convertMetricResults aggr (.mk dc k ks shape subs me) gIdx bIdx)
    | .own, b :: bs =>
      let key := extractResultKey aggr.groupBy (.mk dc k ks .own (b :: bs) me) gIdx bIdx
      .arr (convertBucketList aggr key gIdx 0 (b :: bs))
    | .nested, b :: bs =>
      let key := extractResultKey aggr.groupBy (.mk dc k ks .nested (b :: bs) me) gIdx bIdx
      .arr (convertBucketList aggr key gIdx 0 (b :: bs))

/-- The `for (let i = 0; ...)` loop over a node's buckets (`i` counts ALL
buckets, including the dropped zero-count ones). -/
def convertBucketList (aggr : AggData) (key : RKey) (gIdx : Int) (i : Nat) :
    List AggNode → List ConvEntry
  | [] => []
  | b :: rest =>
    let here :=
      if b.docCount ≤ 0 then []
      else
        let groups := (convertBucketResults aggr b (gIdx + 1) (i : Int)).toList
        if key ≠ .null ∧ key ≠ .undef then
          groups.map fun g => { g with keys := key :: g.keys }
        else
          groups
    here ++ convertBucketList aggr key gIdx (i + 1) rest

end

/-- The final shape `convertAggregateResult` returns: a single result
object with its (meaningless) `keys` removed when there was no `groupBy`
nesting, or the per-bucket-combination array. -/
inductive AggFinal where
  | single (stats : List (String × List (String × Int))) (total : Option Int)
  | multi (es : List ConvEntry)
deriving DecidableEq, Repr

/-- `convertAggregateResult(aggregateResult, aggregate)`. -/
def convertAggregateResult (nd : AggNode) (aggr : AggData) : AggFinal :=
  match convertBucketResults aggr nd (-1) (-1) with
  | .one e => .single e.stats e.total
  | .arr es => .multi es

end Agg

namespace SchemaConv

/-!
Embedding of `lib/convert/schema.js` (`convertSchema`,
`findSubschemaSchemas`, `convertSubschemaValue`, `convertSubschemaControl`,
`convertSubschema`, `commonIndexToESIndex`, `hasSubfieldsIndexed`).

The converter MUTATES the schema data it walks — `findSubschemaSchemas`
overwrites each visited node's `index` property with its engine form and
pushes an array node's `index` down onto its `elements` node — which is
why `convertSchema` starts with `objtools.deepCopy(schema.getData())`.
To make that mutation (and the frame property around it) expressible, the
schema data object graph lives in an explicit heap: a `Store` maps
addresses to `SchemaNode`s, object identity is address identity, and
`objtools.deepCopy` allocates fresh addresses.  The converter's recursion
is fuel-indexed (the heap carries no structural-recursion measure); fuel
exhaustion and dangling addresses surface as model-level errors that
perform no writes, so the frame theorems hold for every fuel.

Modelling notes, from the source:
* the caller's `extraIndexes` entries also get their `index` rewritten in
  place; they are caller-owned objects disjoint from the schema data (the
  claim under verification concerns only the schema object), so they are
  modelled as immutable values here;
* `options.extraIndexes = extraIndexes` mutates the caller's options
  object, again outside the schema;
* `esMapping` payloads are opaque to the converter (it only deep-merges
  them onto the produced mapping); they are modelled as flat
  string-to-literal objects.
-/

/-- A JS `index` property value. -/
inductive JsIdx where
  | undef
  | bool (b : Bool)
  | str (s : String)
deriving DecidableEq, Repr

/-- JS truthiness of an `index` value. -/
def JsIdx.truthy : JsIdx → Bool
  | .undef => false
  | .bool b => b
  | .str s => !(s = "")

/-- A scalar JS literal (the schema attributes the converter reads besides
`index`, and the values of a flat `esMapping` patch). -/
inductive JLit where
  | undef
  | bool (b : Bool)
  | num (n : Int)
  | str (s : String)
deriving DecidableEq, Repr

/-- JS truthiness of a literal. -/
def JLit.truthy : JLit → Bool
  | .undef => false
  | .bool b => b
  | .num n => !(n = 0)
  | .str s => !(s = "")

/-- One schema-data node (a plain JS object): its `type`, its mutable
`index` property, child object references (`properties` for objects,
`elements` for arrays, `values` for maps) and the remaining scalar
attributes (`numberType`, `precisionStep`, `default`, `format`, `geohash`,
`analyzer`, `id`, `nested`, `includeInParent`, `includeInRoot`) as an
attribute map.  `esMapping` is an optional flat patch object. -/
structure SchemaNode where
  type_ : String
  index : JsIdx := .undef
  properties : List (String × Nat) := []
  elements : Option Nat := none
  values : Option Nat := none
  attrs : List (String × JLit) := []
  esMapping : Option (List (String × JLit)) := none
deriving DecidableEq, Repr

/-- Read a scalar attribute (an absent property reads as `undefined`). -/
def SchemaNode.attr (nd : SchemaNode) (k : String) : JLit :=
  (nd.attrs.lookup k).getD JLit.undef

/-- The heap of schema-data objects. -/
structure Store where
  mem : Nat → Option SchemaNode
  next : Nat

/-- Heap write. -/
def Store.write (σ : Store) (a : Nat) (nd : SchemaNode) : Store :=
  { σ with mem := fun x => if x = a then some nd else σ.mem x }

/-- Fresh allocation. -/
def Store.alloc (σ : Store) (nd : SchemaNode) : Nat × Store :=
  (σ.next,
    { mem := fun x => if x = σ.next then some nd else σ.mem x, next := σ.next + 1 })

/-- `ElasticsearchMappingValidationError` (plus the model-level errors for
fuel exhaustion / dangling references, which perform no writes). -/
structure MappingError where
  message : String
deriving DecidableEq, Repr

/-- The store-passing, throwing computation type of the embedding. -/
def SM (α : Type) : Type := Store → Except MappingError α × Store

def SM.pure {α : Type} (x : α) : SM α := fun σ => (.ok x, σ)

def SM.bind {α β : Type} (m : SM α) (f : α → SM β) : SM β := fun σ =>
  match m σ with
  | (.ok x, σ') => f x σ'
  | (.error e, σ') => (.error e, σ')

instance : Monad SM where
  pure := SM.pure
  bind := SM.bind

def SM.throw {α : Type} (msg : String) : SM α := fun σ => (.error ⟨msg⟩, σ)

/-- Read a node; a dangling reference is a model-level error. -/
def SM.read (a : Nat) : SM SchemaNode := fun σ =>
  match σ.mem a with
  | some nd => (.ok nd, σ)
  | none => (.error ⟨"model: dangling schema reference"⟩, σ)

def SM.write (a : Nat) (nd : SchemaNode) : SM Unit := fun σ =>
  (.ok (), σ.write a nd)

def SM.alloc (nd : SchemaNode) : SM Nat := fun σ =>
  let (a, σ') := σ.alloc nd
  (.ok a, σ')

/-- The produced engine mapping, as a JSON-shaped value. -/
inductive MVal where
  | undef
  | bool (b : Bool)
  | num (n : Int)
  | str (s : String)
  | obj (fields : List (String × MVal))
deriving Repr

/-- Set a key of a JSON object value (assignment to a JS object property:
overwrite in place if present, else append). -/
def objSet (fields : List (String × MVal)) (k : String) (v : MVal) : List (String × MVal) :=
  if (fields.lookup k).isSome then
    fields.map fun (k', v') => if k' = k then (k', v) else (k', v')
  else
    fields ++ [(k, v)]

/-- Promote a scalar literal to a mapping value. -/
def JLit.toMVal : JLit → MVal
  | .undef => .undef
  | .bool b => .bool b
  | .num n => .num n
  | .str s => .str s

/-- `objtools.merge(mapping, schema.esMapping)` for a flat patch. -/
def mergePatch (fields : List (String × MVal)) (patch : List (String × JLit)) :
    List (String × MVal) :=
  patch.foldl (fun acc (k, v) => objSet acc k v.toMVal) fields

def VALUE_SCHEMA_TYPES : List String := ["string", "number", "boolean", "date", "geopoint"]

def CONTROL_SCHEMA_TYPES : List String := ["object", "array", "map", "or", "mixed"]

def NUMBER_TYPES : List String := ["byte", "short", "integer", "long", "float", "double"]

/-- `commonIndexToESIndex(commonIndex, type)`. -/
def commonIndexToESIndex (commonIndex : JsIdx) (type_ : String) : JsIdx :=
  if type_ = "string" then
    if commonIndex = .bool true ∨ commonIndex = .str "not_analyzed" then .str "not_analyzed"
    else if commonIndex = .str "analyzed" then .str "analyzed"
    else .str "no"
  else if commonIndex.truthy then
    .undef
  else
    .str "no"

/-- One extra-index entry (`{ field, index, name?, analyzer? }`). -/
structure ExtraIdx where
  field : String
  index : JsIdx := .undef
  name : Option String := none
  analyzer : Option String := none
deriving DecidableEq, Repr

/-- `objtools.merge({}, subschema, extraIndex)`: the extra schema is the
subschema's data with the extra-index entry's own properties laid on top
(its already-converted `index`, and its `analyzer`/`name` when given). -/
def mkExtraSchema (nd : SchemaNode) (convIdx : JsIdx) (ei : ExtraIdx) : SchemaNode :=
  let a1 := { nd with index := convIdx }
  match ei.analyzer with
  | some an => { a1 with attrs := (a1.attrs.filter fun (k, _) => ¬ k = "analyzer") ++ [("analyzer", .str an)] }
  | none => a1

/-- JS string coercion used by the multi-field name fallback
(`'' + extraSchema.analyzer`, `'' + extraSchema.index`). -/
def jsStrOfOpt : Option String → String
  | none => "undefined"
  | some s => s

def jsStrOfIdx : JsIdx → String
  | .undef => "undefined"
  | .bool b => if b then "true" else "false"
  | .str s => s

/-- `extraSchema.name || '' + extraSchema.analyzer || '' + extraSchema.index`
(note: when `analyzer` is absent the middle term is the TRUTHY string
`"undefined"`, so the last fallback is only reached for an empty-string
analyzer). -/
def multiFieldName (ei : ExtraIdx) (convIdx : JsIdx) : String :=
  let n1 := (ei.name).getD ""
  if ¬ n1 = "" then n1
  else
    let n2 := jsStrOfOpt ei.analyzer
    if ¬ n2 = "" then n2 else jsStrOfIdx convIdx

/-- `findSubschemaSchemas(subschema, path, extraIndexes)`: pushes an array
node's `index` down onto its `elements` node when the latter has none,
rewrites the node's `index` property to its engine form IN PLACE, and
resolves the extra indexes matching `path` into a default schema (at most
one unnamed entry may take over as the default when the schema itself left
`index` unset) and a list of extra (multi-field) schemas. -/
def findSubschemaSchemas (extraIndexes : List ExtraIdx) (a : Nat) (path : String) :
    SM (SchemaNode × List (String × SchemaNode)) := do
  let nd ← SM.read a
  -- array element index propagation (mutates the elements node)
  if nd.type_ = "array" then
    match nd.elements with
    | some ea => do
      let end_ ← SM.read ea
      if end_.index = .undef then
        SM.write ea { end_ with index := nd.index }
      else
        SM.pure ()
    | none => SM.pure ()
  else
    SM.pure ()
  let nd ← SM.read a
  let subschemaIndex := nd.index
  let convIdx := commonIndexToESIndex nd.index nd.type_
  SM.write a { nd with index := convIdx }
  let nd' := { nd with index := convIdx }
  let matching := extraIndexes.filter fun ei => ei.field = path
  if ¬ matching.isEmpty ∧ ¬ VALUE_SCHEMA_TYPES.contains nd.type_ then
    SM.throw "Cannot apply extra index to a non-value schema type"
  else do
    let step := fun (acc : SchemaNode × List (String × SchemaNode) × Bool) (ei : ExtraIdx) => do
      let (defaultSchema, extraSchemas, tookDefault) := acc
      let eiConv := commonIndexToESIndex ei.index nd.type_
      let extraSchema := mkExtraSchema nd' eiConv ei
      if (ei.name.getD "") = "" ∧ subschemaIndex = .undef then
        if ¬ tookDefault then
          SM.pure (extraSchema, extraSchemas, true)
        else
          SM.throw ("Multiple extra schemas tried to register as the default schema for " ++ path)
      else
        SM.pure (defaultSchema, extraSchemas ++ [(multiFieldName ei eiConv, extraSchema)], tookDefault)
    let (defaultSchema, extraSchemas, _) ← matching.foldlM step (nd', [], false)
    SM.pure (defaultSchema, extraSchemas)

/-- `convertSubschemaValue(schema, name, path)` (pure: reads only the node
value it is given). -/
def convertSubschemaValue (sn : SchemaNode) (path : String) :
    Except MappingError MVal := do
  let idxV : MVal := match sn.index with
    | .undef => .undef
    | .bool b => .bool b
    | .str s => .str s
  let base : List (String × MVal) := [("type", .str sn.type_), ("index", idxV)]
  let withType ←
    if sn.type_ = "number" then do
      let numberType := match sn.attr "numberType" with
        | .str s => if s = "" then "double" else s
        | _ => "double"
      let b1 := objSet base "type" (.str numberType)
      if ¬ NUMBER_TYPES.contains numberType then
        .error ⟨"Number type at " ++ path ++ " is an invalid ElasticSearch Number Type"⟩
      else do
        let ps ← match sn.attr "precisionStep" with
          | .undef => Except.ok (8 : Int)
          | .num n => Except.ok n
          | .str s =>
            match Agg.jsParseInt s with
            | some n => Except.ok n
            | none => .error ⟨"Number precision step at " ++ path ++ " must be an integer or a parsable string"⟩
          | .bool _ => .error ⟨"Number precision step at " ++ path ++ " must be an integer or a parsable string"⟩
        Except.ok (objSet b1 "precision_step" (.num ps))
    else if sn.type_ = "date" then
      let fmt := match sn.attr "format" with
        | .str s => if s = "" then "date_optional_time" else s
        | _ => "date_optional_time"
      Except.ok (objSet base "format" (.str fmt))
    else if sn.type_ = "geopoint" then
      if ¬ sn.index = .str "no" then
        Except.ok (objSet (objSet base "type" (.str "geo_point")) "geohash"
          (.bool (¬ sn.attr "geohash" = .bool false)))
      else
        Except.ok (objSet base "type" (.str "double"))
    else
      Except.ok base
  let withNull := objSet withType "null_value" (sn.attr "default").toMVal
  if sn.index = .str "analyzed" then
    let an := sn.attr "analyzer"
    if ¬ an.truthy then
      .error ⟨"Analyzed value at " ++ path ++ " is missing analyzer value"⟩
    else
      Except.ok (.obj (objSet withNull "analyzer" an.toMVal))
  else
    Except.ok (.obj withNull)

/-- `hasSubfieldsIndexed(schema)`: schema traversal checking
`subschema.index !== 'no'` anywhere (the visited node included).  Note the
children still carry their RAW index values at this point, and a raw
`undefined` index is `!== 'no'`. -/
def hasSubfieldsIndexed (fuel : Nat) (a : Nat) : SM Bool :=
  match fuel with
  | 0 => SM.throw "model: out of fuel"
  | fuel + 1 => do
    let nd ← SM.read a
    if ¬ nd.index = .str "no" then
      SM.pure true
    else do
      let childAddrs := nd.properties.map (·.2) ++ nd.elements.toList ++ nd.values.toList
      childAddrs.foldlM (fun acc c => do
        if acc then SM.pure true else hasSubfieldsIndexed fuel c) false

mutual

/-- `convertSubschema(schema, name, path, extraIndexes)`; returns the
mapping together with the dotted path of the `id: true` field if one was
seen. -/
def convertSubschema (fuel : Nat) (extraIndexes : List ExtraIdx) (a : Nat)
    (path : String) : SM (MVal × Option String) :=
  match fuel with
  | 0 => SM.throw "model: out of fuel"
  | fuel + 1 => do
    let (defaultSchema, extraSchemas) ← findSubschemaSchemas extraIndexes a path
    let nd ← SM.read a
    let (mapping, idField) ←
      if VALUE_SCHEMA_TYPES.contains nd.type_ then do
        let idField := if (nd.attr "id").truthy then some path else none
        let mapping ← fun σ => (convertSubschemaValue defaultSchema path, σ)
        if extraSchemas.isEmpty then
          SM.pure (mapping, idField)
        else do
          let fieldsMap ← extraSchemas.foldlM (fun (acc : List (String × MVal)) (p : String × SchemaNode) => do
            let (fname, extraSchema) := p
            if (acc.lookup fname).isSome then
              SM.throw ("Value mapping cannot have multiple subfields with the same name (" ++ fname ++ ")")
            else do
              let sub ← fun σ => (convertSubschemaValue extraSchema path, σ)
              SM.pure (acc ++ [(fname, sub)])) []
          match mapping with
          | .obj fs => SM.pure (MVal.obj (objSet fs "fields" (.obj fieldsMap)), idField)
          | other => SM.pure (other, idField)
      else if CONTROL_SCHEMA_TYPES.contains nd.type_ then
        convertSubschemaControl fuel extraIndexes defaultSchema a path
      else
        SM.throw ("Cannot convert unknown schema type (" ++ nd.type_ ++ ") to ElasticSearch Mapping")
    match nd.esMapping with
    | some patch =>
      match mapping with
      | .obj fs => SM.pure (MVal.obj (mergePatch fs patch), idField)
      | other => SM.pure (other, idField)
    | none => SM.pure (mapping, idField)

/-- `convertSubschemaControl(schema, name, path, extraIndexes)`; `a` is the
address of the node `sn` was read from (for control types the default
schema is always the schema node itself — extra indexes on control types
fail earlier), which the map case's `hasSubfieldsIndexed` traversal starts
from. -/
def convertSubschemaControl (fuel : Nat) (extraIndexes : List ExtraIdx)
    (sn : SchemaNode) (a : Nat) (path : String) : SM (MVal × Option String) :=
  match fuel with
  | 0 => SM.throw "model: out of fuel"
  | fuel + 1 =>
    if sn.type_ = "object" then do
      let (props, idField) ← sn.properties.foldlM
        (fun (acc : List (String × MVal) × Option String) (p : String × Nat) => do
          let (accProps, accId) := acc
          let (field, childAddr) := p
          let fieldPath := if path = "" then field else path ++ "." ++ field
          let (childMapping, childId) ← convertSubschema fuel extraIndexes childAddr fieldPath
          SM.pure (accProps ++ [(field, childMapping)], childId <|> accId)) ([], none)
      let base : List (String × MVal) :=
        [("type", .str "object"), ("dynamic", .bool false), ("properties", .obj props)]
      if (sn.attr "nested").truthy then
        let b1 := objSet base "type" (.str "nested")
        let b2 := if (sn.attr "includeInParent").truthy then
            objSet b1 "include_in_parent" (.bool true) else b1
        let b3 := if ¬ sn.attr "includeInRoot" = .bool false then
            objSet b2 "include_in_root" (.bool true) else b2
        SM.pure (.obj b3, idField)
      else
        SM.pure (.obj base, idField)
    else if sn.type_ = "array" then
      match sn.elements with
      | some ea => convertSubschema fuel extraIndexes ea path
      | none => SM.throw "model: array schema without elements"
    else if sn.type_ = "mixed" then
      if ¬ sn.index = .str "no" then
        SM.pure (.obj [("type", .str "object"), ("dynamic", .bool true)], none)
      else
        SM.pure (.obj [("type", .str "object"), ("dynamic", .bool false),
          ("enabled", .bool false)], none)
    else if sn.type_ = "map" then do
      let indexed ← hasSubfieldsIndexed fuel a
      if indexed then
        SM.pure (.obj [("type", .str "object"), ("dynamic", .bool true)], none)
      else
        SM.pure (.obj [("type", .str "object"), ("dynamic", .bool false),
          ("enabled", .bool false)], none)
    else if sn.type_ = "or" then
      SM.throw ("Invalid schema type provided: " ++ sn.type_)
    else
      SM.pure (.obj [("type", .str "object"), ("dynamic", .bool false)], none)

end

/-- `objtools.deepCopy(schema.getData())`: structurally clone the object
graph below `a` into fresh addresses. -/
def deepCopy (fuel : Nat) (a : Nat) : SM Nat :=
  match fuel with
  | 0 => SM.throw "model: out of fuel"
  | fuel + 1 => do
    let nd ← SM.read a
    let props ← nd.properties.foldlM (fun (acc : List (String × Nat)) (p : String × Nat) => do
      let c ← deepCopy fuel p.2
      SM.pure (acc ++ [(p.1, c)])) []
    let elems ← match nd.elements with
      | some ea => do
        let c ← deepCopy fuel ea
        SM.pure (some c)
      | none => SM.pure none
    let vals ← match nd.values with
      | some va => do
        let c ← deepCopy fuel va
        SM.pure (some c)
      | none => SM.pure none
    SM.alloc { nd with properties := props, elements := elems, values := vals }

/-- Options of `convertSchema`. -/
structure ConvOptions where
  parentType : Option String := none
  includeAllField : Option Bool := none
deriving DecidableEq, Repr

/-- `convertSchema(schema, extraIndexes, options)`: deep-copies the
schema's data, converts the copy (the conversion's in-place `index`
rewrites therefore hit only the copy), strips the root-only-invalid
`type`/`dynamic` keys and attaches `_id`/`_parent`/`_all`. -/
def convertSchema (fuel : Nat) (extraIndexes : List ExtraIdx) (opts : ConvOptions)
    (rootAddr : Nat) : SM MVal := do
  let copy ← deepCopy fuel rootAddr
  let rootNode ← SM.read copy
  if ¬ rootNode.type_ = "object" then
    SM.throw "Schema root must be type object to be converted to ElasticSearch Mapping"
  else do
    let (mapping, idField) ← convertSubschema fuel extraIndexes copy ""
    let fs := match mapping with
      | .obj fs => fs
      | _ => []
    let fs := fs.filter fun (k, _) => ¬ (k = "type" ∨ k = "dynamic")
    let fs := match idField with
      | some p => objSet fs "_id" (.obj [("path", .str p)])
      | none => fs
    let fs := match opts.parentType with
      | some pt => if ¬ pt = "" then objSet fs "_parent" (.obj [("type", .str pt)]) else fs
      | none => fs
    let fs := objSet fs "_all" (.obj [("enabled", .bool (opts.includeAllField = some true))])
    SM.pure (.obj fs)

end SchemaConv

/-! ## Verification-support definitions -/

namespace Scroll

/-- Specification-side consumption count for the scroll driver, following
the amended reading of the spec: the driver consumes one whole batch per
iteration and stops after the first batch that is an empty continuation
batch (normal end of data) or that brings the progress counter to the
limit (`limit > 0 && progress >= limit`); `some n` means it stops after
consuming `n` batches, `none` that the given batches never make it stop. -/
def specConsumed (limit : Int) (progress : Nat) (isFirst : Bool) :
    List (List Hit) → Option Nat
  | [] => none
  | h :: rest =>
    if ¬ isFirst ∧ h.isEmpty then some 1
    else if limit > 0 ∧ ((progress + h.length : Nat) : Int) ≥ limit then some 1
    else (specConsumed limit (progress + h.length) false rest).map (· + 1)

/-- The cursor value after consuming a list of responses, starting from
`sid` (`_scroll_id` of each response replaces the current cursor). -/
def cursorAfter (sid : String) (rs : List ScrollResp) : String :=
  rs.foldl (fun s r => r.scrollId.getD s) sid

/-- The continuation requests a run issues while consuming `rs` from
cursor `sid`. -/
def reqSeq (sid : String) : List ScrollResp → List ScrollReq
  | [] => []
  | r :: rest => .scrollNext sid :: reqSeq (r.scrollId.getD sid) rest

end Scroll

namespace Agg

/-- Key well-formedness of one level-`level` bucket: the fields
`extractResultKey` reads for the classification of `groupBy[level]` are
present and parseable (so the extracted key is never `null`/`undef`/
`invalidDate`/`nan`). -/
def wfKey (aggr : AggData) (level : Nat) (nd : AggNode) : Bool :=
  match aggr.groupBy[level]? with
  | none => false
  | some group =>
    match group.typeName with
    | "field" => nd.key.isSome
    | "range" => true
    | "interval" =>
      match group.interval with
      | some (.num _ _) =>
        match nd.key with
        | some (.n _) => true
        | some (.s s) => (jsParseInt s).isSome
        | none => false
      | _ =>
        match nd.keyAsString with
        | some s => (Joda.fromJodaFormat s).isSome
        | none => false
    | "time-component" =>
      match nd.keyAsString with
      | some s => (Joda.fromJodaFormat s).isSome
      | none => false
    | _ => nd.key.isSome

mutual

/-- Well-formedness of an engine aggregation response node at tree depth
`d` for the given aggregate: a node at depth `d < groupBy.length` resolves
to a non-empty bucket list whose members are well-formed depth-`d+1` nodes
with well-formed level-`d` keys; a node at depth `groupBy.length` is a
leaf (no resolved buckets).  This is the shape the engine produces for the
aggregation `convertAggregate` builds. -/
def wfNode (aggr : AggData) (d : Nat) : AggNode → Bool
  | .mk _ _ _ shape subs _ =>
    match shape, subs with
    | .missing, _ => d = aggr.groupBy.length
    | .own, [] => d = aggr.groupBy.length
    | .nested, [] => d = aggr.groupBy.length
    | .own, b :: bs => decide (d < aggr.groupBy.length) && wfList aggr d (b :: bs)
    | .nested, b :: bs => decide (d < aggr.groupBy.length) && wfList aggr d (b :: bs)

def wfList (aggr : AggData) (d : Nat) : List AggNode → Bool
  | [] => true
  | b :: rest => wfKey aggr d b && wfNode aggr (d + 1) b && wfList aggr d rest

end

/-- The group key of the bucket `b`, sitting at position `i` of a depth-`d`
node's bucket list (so `b` is a bucket of `groupBy[d]`), as
`extractResultKey` computes it. -/
def keyOf (aggr : AggData) (d : Nat) (b : AggNode) (i : Nat) : RKey :=
  extractResultKey aggr.groupBy b (d : Int) (i : Int)

mutual

/-- Specification-side key collection, following the claim: one result row
per leaf reachable through buckets with positive document counts only
(zero-count buckets are dropped together with their subtrees), whose key
list has one group key per `groupBy` entry, in `groupBy` order (the
level-`d` key of the path at position `d`). -/
def relKeys (aggr : AggData) (d : Nat) : AggNode → List (List RKey)
  | .mk _ _ _ shape subs _ =>
    match shape, subs with
    | .missing, _ => [[]]
    | .own, [] => [[]]
    | .nested, [] => [[]]
    | .own, b :: bs => relKeysList aggr d 0 (b :: bs)
    | .nested, b :: bs => relKeysList aggr d 0 (b :: bs)

def relKeysList (aggr : AggData) (d : Nat) (i : Nat) : List AggNode → List (List RKey)
  | [] => []
  | b :: rest =>
    (if b.docCount ≤ 0 then []
     else (relKeys aggr (d + 1) b).map fun ks => keyOf aggr d b i :: ks) ++
    relKeysList aggr d (i + 1) rest

end

end Agg

namespace SchemaConv

/-- The addresses a node value points at (object properties, array
elements, map values). -/
def nodeChildren (nd : SchemaNode) : List Nat :=
  nd.properties.map (·.2) ++ nd.elements.toList ++ nd.values.toList

/-- A well-formed allocator state: nothing lives at or above the
allocation pointer. -/
def WfHeap (σ : Store) : Prop :=
  ∀ a, σ.next ≤ a → σ.mem a = none

/-- The heap region at or above `N` is closed under child pointers: a node
living at a high address only points at high addresses.  The fresh copies
`deepCopy` makes satisfy this with `N` the allocation pointer at entry,
and the converter's in-place `index` rewrites preserve it. -/
def Closed (N : Nat) (σ : Store) : Prop :=
  ∀ a nd, σ.mem a = some nd → N ≤ a → ∀ c ∈ nodeChildren nd, N ≤ c

/-- The combined heap invariant threaded through the converter. -/
def HInv (N : Nat) (σ : Store) : Prop :=
  N ≤ σ.next ∧ Closed N σ ∧ WfHeap σ

/-- Frame property of one store step: under the invariant, the heap below
`N` is untouched and the invariant is maintained. -/
def Evolves (N : Nat) (σ σ' : Store) : Prop :=
  HInv N σ → (∀ x, x < N → σ'.mem x = σ.mem x) ∧ HInv N σ'

end SchemaConv

/-! ## Concrete example inputs used by counterexamples and witnesses -/

namespace Doc

/-- A concrete oracle: hooks and engine calls succeed, the engine echoes
the requested id/index back. -/
def exEnv : DocEnv :=
  { typeName := "person", mapping := { idPath := none, hasParent := false },
    defaultIndexName := "idx",
    normalize := fun d => .ok d,
    getPath := fun _ _ => none,
    hook := fun _ => .ok (),
    deleteResult := fun _ => .ok (),
    indexResult := fun p => .ok ⟨p.id.getD "gen", p.index.getD "idx", none, none⟩ }

/-- A previously-existing document whose routing is newly set (the
original snapshot has no routing value): the routing field DIFFERS between
current and original fields, yet its original value is not truthy. -/
def exDocRoutingSet : EsDocument :=
  { data := "d",
    fields := { id := some "a", routing := some "r", index := some "i" },
    originalData := some "d",
    originalFields := some { id := some "a", routing := none, index := some "i" } }

/-- A previously-existing document whose id was changed (original id
truthy and different). -/
def exDocIdChanged : EsDocument :=
  { data := "d",
    fields := { id := some "b", routing := some "r", index := some "i" },
    originalData := some "d",
    originalFields := some { id := some "a", routing := some "r", index := some "i" } }

/-- A freshly constructed document (never saved or hydrated). -/
def exDocFresh : EsDocument :=
  { data := "d", fields := {}, originalData := none, originalFields := none }

/-- A document hydrated from the engine. -/
def exDocSaved : EsDocument :=
  { data := "d", fields := { id := some "a", index := some "i" },
    originalData := some "d",
    originalFields := some { id := some "a", index := some "i" } }

end Doc

namespace Agg

/-- Example: stats on `age`, grouped by `name` (terms) then by a numeric
`age` range (three ranges). -/
def exAggSpec : AggData :=
  { stats := [("age", ["count", "avg"])], total := false,
    groupBy := [ { typeName := "field", field := "name" },
                 { typeName := "range", field := "age",
                   ranges := some (.nums [(none, some 2), (some 2, some 5), (some 5, none)]) } ] }

/-- A leaf bucket (range bucket carrying the metrics). -/
def exLeaf (dc : Int) (cnt : Int) : AggNode :=
  .mk dc none none .missing [] [("|age", ⟨[("count", cnt), ("avg", 7), ("sum", 9)]⟩)]

/-- An engine response for `exAggSpec` in which the `baloo` and `ghost`
name buckets have only zero-count range sub-buckets, and `charles` has a
zero-count middle range bucket. -/
def exRespTree : AggNode :=
  .mk 0 none none .own
    [ .mk 5 (some (.s "charles")) none .nested [exLeaf 2 2, exLeaf 0 0, exLeaf 3 3] [],
      .mk 2 (some (.s "baloo")) none .nested [exLeaf 0 0, exLeaf 0 0, exLeaf 0 0] [],
      .mk 0 (some (.s "ghost")) none .nested [exLeaf 0 0, exLeaf 0 0, exLeaf 0 0] [] ] []

/-- An interval group-by entry carrying a base value (`{ field: 'age',
interval: 2, base: 1 }` of the repository's own test). -/
def exIntervalBaseGroup : Group :=
  { typeName := "interval", field := "age", interval := some (.num 2 (some 1)) }

end Agg

namespace SchemaConv

/-- A concrete two-node schema heap: address 1 holds the root object
schema with one string field `foo` at address 2. -/
def exStore : Store :=
  { mem := fun a =>
      if a = 1 then some { type_ := "object", properties := [("foo", 2)] }
      else if a = 2 then some { type_ := "string" }
      else none,
    next := 3 }

end SchemaConv

/-! ## Theorems -/

/-- C8 (counterexample).  The claim states
`elasticsearchGlobFilter('bar,baz', ['foobar','baz','qux'])` returns
exactly `['baz']`; in fact the regex `(bar)|(baz)` is tested UNANCHORED,
`'foobar'` contains the substring `bar`, and the function returns
`['foobar', 'baz']`. -/
theorem c8_counterexample :
    Glob.elasticsearchGlobFilter "bar,baz" ["foobar", "baz", "qux"] ≠ ["baz"] ∧
    Glob.elasticsearchGlobFilter "bar,baz" ["foobar", "baz", "qux"] = ["foobar", "baz"] := by
  decide

/-- C8 (amended).  `elasticsearchGlobFilter('foo*', ['foobar','baz'])`
returns exactly `['foobar']`; `elasticsearchGlobFilter('bar,baz',
['foobar','baz','qux'])` returns exactly `['foobar','baz']` (not
`['baz']`: matching is unanchored, so `'foobar'` matches the `bar`
alternative); in general the filter splits the glob on commas into
alternatives, replaces every `*` with `.*`, and keeps exactly the names
the resulting regex matches anywhere. -/
theorem c8_glob_filter_amended :
    Glob.elasticsearchGlobFilter "foo*" ["foobar", "baz"] = ["foobar"] ∧
    Glob.elasticsearchGlobFilter "bar,baz" ["foobar", "baz", "qux"] = ["foobar", "baz"] ∧
    ∀ (glob : String) (strings : List String) (s : String),
      s ∈ Glob.elasticsearchGlobFilter glob strings ↔
        s ∈ strings ∧ Glob.globRegexTest glob s = true := by
  refine ⟨by decide, by decide, ?_⟩
  intro glob strings s
  simp [Glob.elasticsearchGlobFilter, List.mem_filter]

/-- C7 (code bug).  The claim (and the source's own
`JODA_ISO_STRING_FORMAT = 'yyyy-MM-ddHH:mm:ss.SSS'`, declared to the
engine as the format of the values it renders) says `toJodaFormat`
renders milliseconds after the dot and the round trip is lossless.  The
moment-side format string uses lower-case `'sss'` — two SECOND tokens,
not the millisecond token `'SSS'` — so for 2015-01-01T00:00:30.500Z the
code renders `"2015-01-0100:00:30.3030"` (the second, twice, in the
fraction slot) and the round trip comes back without the milliseconds. -/
theorem c7_joda_roundtrip_code_bug :
    Joda.toJodaFormat ⟨2015, 1, 1, 0, 0, 30, 500⟩ = "2015-01-0100:00:30.3030" ∧
    Joda.fromJodaFormat (Joda.toJodaFormat ⟨2015, 1, 1, 0, 0, 30, 500⟩) =
      some ⟨2015, 1, 1, 0, 0, 30, 0⟩ ∧
    (⟨2015, 1, 1, 0, 0, 30, 0⟩ : Joda.JsDate) ≠ ⟨2015, 1, 1, 0, 0, 30, 500⟩ := by
  decide

/-- C2 (code bug).  The claim (and the source function's own doc comment,
"Ensure the field is indexed for text matches (ie analyzed)", throwing
"when field is not indexed for a text match") says `$text` conversion
succeeds iff the field is analyzed-indexed.  The code's condition is
inverted: `ensureTextMatchField` throws exactly when `'analyzed'` IS
among the field's collected index values, so `$text` on an
analyzed-indexed field fails while `$text` on a merely `index: true`
field produces the match query. -/
theorem c2_text_match_code_bug :
    QueryConv.textExprToFilter ⟨[]⟩ [("description", ⟨.str "analyzed"⟩)] none "description" "dog"
      = .error ⟨"Field is indexed for text match: description"⟩ ∧
    QueryConv.textExprToFilter ⟨[]⟩ [("description", ⟨.bool true⟩)] none "description" "dog"
      = .ok ⟨"description", "dog", "and"⟩ ∧
    QueryConv.textExprToFilter ⟨[⟨"description", .str "analyzed"⟩]⟩
        [("description", ⟨.undef⟩)] none "description" "dog"
      = .error ⟨"Field is indexed for text match: description"⟩ := by
  refine ⟨by decide, by decide, by decide⟩

/-- C6 (code bug).  The claim (and the repository's own test, "should
throw if base is provided for intervals") says converting an interval
group-by with a base fails with a validation error.  The code instead
renders the base as `extended_bounds.min` and succeeds.  The non-base
parts of the claim hold: duration intervals become a `date_histogram`
with the duration rendered in seconds suffixed `s`, numeric intervals a
plain `histogram`. -/
theorem c6_interval_base_code_bug :
    Agg.convertAggregate (fun _ => 86400) { groupBy := [Agg.exIntervalBaseGroup] }
      = .ok (.bucketChain [.histogram "age" 2 (some 1)] none) ∧
    Agg.buildBuckets (fun _ => 86400)
        [{ typeName := "interval", field := "found", interval := some (.dur "P1D" none) }]
      = .ok [.dateHistogram "found" "86400s" none (some Joda.JODA_ISO_STRING_FORMAT)] ∧
    Agg.buildBuckets (fun _ => 86400)
        [{ typeName := "interval", field := "age", interval := some (.num 2 none) }]
      = .ok [.histogram "age" 2 none] := by
  refine ⟨by decide, by decide, by decide⟩

/-- C1 (counterexample).  The claim says a `findStream` with
`options.limit = N` against a query matching more than `N` records emits
exactly `N` documents regardless of the scroll size.  With `limit = 1`
and a first batch of two hits (scroll size 2, 150 matching records), the
driver writes the WHOLE batch before re-checking the limit and the stream
emits 2 documents. -/
theorem c1_counterexample :
    (Scroll.findStreamDriver (some 1) (fun _ => .ok ())
        [.ok ⟨[11, 12], some "s", 150⟩]).emitted = [11, 12] ∧
    (Scroll.findStreamDriver (some 1) (fun _ => .ok ())
        [.ok ⟨[11, 12], some "s", 150⟩]).emitted.length ≠ 1 ∧
    (Scroll.findStreamDriver (some 1) (fun _ => .ok ())
        [.ok ⟨[11, 12], some "s", 150⟩]).outcome = .ok () ∧
    (Scroll.findStreamDriver (some 1) (fun _ => .ok ())
        [.ok ⟨[11, 12], some "s", 150⟩]).total = some 150 := by
  decide

/-- C9 (counterexample).  The claim says the original scrolling error
still propagates even if the best-effort scroll-clear fails.  The catch
handler chains `clearScroll(...).then(() => Promise.reject(err))` with no
catch on the clear, so when the clear fails ITS error propagates instead
of the original one. -/
theorem c9_counterexample :
    (Scroll.findStreamDriver none (fun _ => .error ⟨"scroll-clear failed"⟩)
        [.ok ⟨[1], some "s", 10⟩, .error ⟨"original scrolling error"⟩]).outcome
      = .error ⟨"scroll-clear failed"⟩ ∧
    (Scroll.findStreamDriver none (fun _ => .error ⟨"scroll-clear failed"⟩)
        [.ok ⟨[1], some "s", 10⟩, .error ⟨"original scrolling error"⟩]).outcome
      ≠ .error ⟨"original scrolling error"⟩ ∧
    (Scroll.findStreamDriver none (fun _ => .error ⟨"scroll-clear failed"⟩)
        [.ok ⟨[1], some "s", 10⟩, .error ⟨"original scrolling error"⟩]).requests
      = [.search, .scrollNext "s", .clearScroll "s"] := by
  decide

/-- C3 (counterexample).  The claim says a purge delete is issued whenever
ANY of id/routing/index/parent differs between the current fields and the
original snapshot.  For a previously-existing document whose routing is
newly set (original routing absent), the routing fields differ, yet the
purge condition additionally requires the ORIGINAL value to be truthy, so
`save` issues only the index request and no delete. -/
theorem c3_counterexample :
    Doc.exDocRoutingSet.fields.routing ≠
      ((Doc.exDocRoutingSet.originalFields).getD {}).routing ∧
    (Doc.save Doc.exEnv Doc.exDocRoutingSet {}).2 =
      [.indexReq ⟨"person", some "a", some "i", none, some "r", "d", none, false, "sync"⟩] := by
  decide

/-- C4.  `remove()` on a Document whose original snapshot is null fails
with the database-category error "Cannot remove document that did not
originally exist." and issues no engine request; and any successful
`remove()` clears the original snapshot back to null, so a second
`remove()` on the returned Document fails with the same error (again
without issuing a request). -/
theorem c4_remove_preconditions :
    (∀ (env : Doc.DocEnv) (doc : Doc.EsDocument),
      doc.originalData = none ∨ doc.originalFields = none →
      Doc.remove env doc =
        (.error ⟨"db_error", "Cannot remove document that did not originally exist."⟩, [])) ∧
    (∀ (env : Doc.DocEnv) (doc d' : Doc.EsDocument) (tr : List Doc.ESRequest),
      Doc.remove env doc = (.ok d', tr) →
      d'.originalData = none ∧ d'.originalFields = none ∧
      Doc.remove env d' =
        (.error ⟨"db_error", "Cannot remove document that did not originally exist."⟩, [])) := by
  have hnone : ∀ (env : Doc.DocEnv) (doc : Doc.EsDocument),
      doc.originalData = none ∨ doc.originalFields = none →
      Doc.remove env doc =
        (.error ⟨"db_error", "Cannot remove document that did not originally exist."⟩, []) := by
    intro env doc h
    rcases hD : doc.originalData with _ | od <;> rcases hF : doc.originalFields with _ | og <;>
      simp_all [Doc.remove]
  refine ⟨hnone, ?_⟩
  intro env doc d' tr h
  rcases hD : doc.originalData with _ | od
  · simp [Doc.remove, hD] at h
  rcases hF : doc.originalFields with _ | og
  · simp [Doc.remove, hD, hF] at h
  simp only [Doc.remove, hD, hF] at h
  by_cases hid : ¬ jsTruthy og.id = true ∨ ¬ jsTruthy og.index = true
  · rw [if_pos hid] at h
    simp at h
  rw [if_neg hid] at h
  split at h
  · exact absurd h (by simp)
  split at h
  · exact absurd h (by simp)
  split at h
  · exact absurd h (by simp)
  rw [Prod.mk.injEq] at h
  obtain ⟨hL, _hR⟩ := h
  have hd' := Except.ok.inj hL
  subst hd'
  exact ⟨rfl, rfl, hnone env _ (Or.inl rfl)⟩

/-- C4 (witness): the two parts of `c4_remove_preconditions` at concrete
inputs — a fresh document fails with no request, and after a successful
removal the snapshot is cleared and a second removal fails. -/
theorem c4_witness :
    Doc.remove Doc.exEnv Doc.exDocFresh =
      (.error ⟨"db_error", "Cannot remove document that did not originally exist."⟩, []) ∧
    ∃ d' tr, Doc.remove Doc.exEnv Doc.exDocSaved = (.ok d', tr) ∧
      d'.originalData = none ∧ d'.originalFields = none ∧
      Doc.remove Doc.exEnv d' =
        (.error ⟨"db_error", "Cannot remove document that did not originally exist."⟩, []) := by
  refine ⟨c4_remove_preconditions.1 Doc.exEnv Doc.exDocFresh (Or.inl rfl), ?_⟩
  obtain ⟨h1, h2, h3⟩ := c4_remove_preconditions.2 Doc.exEnv Doc.exDocSaved
    ⟨"d", ⟨some "a", none, some "i", none⟩, none, none⟩
    [.deleteReq ⟨"person", some "a", some "i", some "a", none⟩] (by decide)
  exact ⟨⟨"d", ⟨some "a", none, some "i", none⟩, none, none⟩,
    [.deleteReq ⟨"person", some "a", some "i", some "a", none⟩], by decide, h1, h2, h3⟩

/-- C3 (amended).  For a previously-existing document (original snapshot
`og`), with well-formed save options, successful normalization and
lifecycle hooks: `save` issues the purge delete at the ORIGINAL
coordinates if and only if some identity field (id, routing, index,
parent) whose ORIGINAL value is truthy differs from the corresponding
current (post-defaulting) field; when it does, the delete strictly
precedes the index (upsert) request, and a purge failure fails the whole
save with no index request ever issued; when it does not (in particular
when a differing field's original value was unset), no purge delete is
issued. -/
theorem c3_purge_amended :
    ∀ (env : Doc.DocEnv) (doc : Doc.EsDocument) (opts : Doc.SaveOpts)
      (og : Doc.DocFields) (nd : Doc.DocData),
      doc.originalFields = some og →
      env.normalize doc.data = .ok nd →
      Doc.validateSaveOpts opts = .ok () →
      env.hook "pre-normalize" = .ok () →
      env.hook "post-normalize" = .ok () →
      env.hook "pre-save" = .ok () →
      (Doc.needsPurged doc.originalFields (Doc.applyFieldDefaults env nd doc.fields) = false →
        (Doc.save env doc opts).2 =
          [.indexReq (Doc.indexParams env (Doc.applyFieldDefaults env nd doc.fields) nd opts)]) ∧
      (Doc.needsPurged doc.originalFields (Doc.applyFieldDefaults env nd doc.fields) = true →
        env.deleteResult (Doc.purgeParams env og) = .ok () →
        (Doc.save env doc opts).2 =
          [.deleteReq (Doc.purgeParams env og),
           .indexReq (Doc.indexParams env (Doc.applyFieldDefaults env nd doc.fields) nd opts)]) ∧
      (∀ e, Doc.needsPurged doc.originalFields (Doc.applyFieldDefaults env nd doc.fields) = true →
        env.deleteResult (Doc.purgeParams env og) = .error e →
        Doc.save env doc opts = (.error e, [.deleteReq (Doc.purgeParams env og)])) := by
  intro env doc opts og nd hOG hnorm hval hh1 hh2 hh3
  simp only [Doc.save, hval, hh1, hnorm, hh2, hh3, hOG]
  refine ⟨?_, ?_, ?_⟩
  · intro hnp
    simp only [hnp, Bool.false_eq_true, if_false]
    rcases env.indexResult (Doc.indexParams env (Doc.applyFieldDefaults env nd doc.fields) nd opts)
      with e | resp
    · rfl
    · rcases env.hook "post-save" with e | u <;> rfl
  · intro hnp hdel
    simp only [hnp, if_true, hdel]
    rcases env.indexResult (Doc.indexParams env (Doc.applyFieldDefaults env nd doc.fields) nd opts)
      with e | resp
    · rfl
    · rcases env.hook "post-save" with e | u <;> rfl
  · intro e hnp hdel
    simp only [hnp, if_true, hdel]

/-- C3 (witness): `c3_purge_amended` at a concrete previously-saved
document whose id was changed — the purge delete at the original
coordinates strictly precedes the index request. -/
theorem c3_witness :
    (Doc.save Doc.exEnv Doc.exDocIdChanged {}).2 =
      [.deleteReq ⟨"person", some "a", some "i", some "r", none⟩,
       .indexReq ⟨"person", some "b", some "i", none, some "r", "d", none, false, "sync"⟩] := by
  have h := c3_purge_amended Doc.exEnv Doc.exDocIdChanged {}
    ⟨some "a", some "r", some "i", none⟩ "d" rfl rfl (by decide) rfl rfl rfl
  exact h.2.1 (by decide) rfl

section ScrollLemmas

open Scroll

/-- Helper: a non-initial scroll run over responses on which the driver
never stops consumes them all, emitting every hit, and continues on the
remaining input with the accumulated progress and the last cursor. -/
theorem scrollLoop_noStop (clear : String → Except EngineError Unit) (limit : Int) :
    ∀ (rs : List ScrollResp) (tail : List (Except EngineError ScrollResp))
      (progress : Nat) (sid : String),
      (∀ r ∈ rs, r.scrollId.isSome) →
      specConsumed limit progress false (rs.map (·.hits)) = none →
      scrollLoop clear limit progress (some sid) (rs.map .ok ++ tail) =
        { emitted := (rs.map (·.hits)).flatten ++
            (scrollLoop clear limit (progress + ((rs.map (·.hits)).map (·.length)).sum)
              (some (cursorAfter sid rs)) tail).emitted,
          requests := reqSeq sid rs ++
            (scrollLoop clear limit (progress + ((rs.map (·.hits)).map (·.length)).sum)
              (some (cursorAfter sid rs)) tail).requests,
          total := (scrollLoop clear limit (progress + ((rs.map (·.hits)).map (·.length)).sum)
              (some (cursorAfter sid rs)) tail).total,
          outcome := (scrollLoop clear limit (progress + ((rs.map (·.hits)).map (·.length)).sum)
              (some (cursorAfter sid rs)) tail).outcome } := by
  intro rs
  induction rs with
  | nil =>
    intro tail progress sid _ _
    simp [cursorAfter, reqSeq]
  | cons r rest ih =>
    intro tail progress sid hsid hspec
    by_cases hre : r.hits.isEmpty = true
    · exfalso
      simp [specConsumed, hre] at hspec
    by_cases hlim : limit > 0 ∧ ((progress + r.hits.length : Nat) : Int) ≥ limit
    · exfalso
      simp only [specConsumed, List.map_cons] at hspec
      rw [if_neg (by simp [hre])] at hspec
      rw [if_pos hlim] at hspec
      cases hspec
    have hrest : specConsumed limit (progress + r.hits.length) false (rest.map (·.hits)) = none := by
      rcases hsc : specConsumed limit (progress + r.hits.length) false (rest.map (·.hits)) with _ | m
      · exact hsc
      · exfalso
        simp only [specConsumed, List.map_cons] at hspec
        rw [if_neg (by simp [hre])] at hspec
        rw [if_neg hlim] at hspec
        rw [hsc] at hspec
        simp at hspec
    obtain ⟨sid', hsid'⟩ := Option.isSome_iff_exists.mp (hsid r (List.mem_cons_self r rest))
    have ih' := ih tail (progress + r.hits.length) sid'
      (fun r' hr' => hsid r' (List.mem_cons_of_mem r hr')) hrest
    simp only [List.map_cons, List.cons_append, scrollLoop]
    rw [if_pos (Or.inr (by simp [hre]))]
    rw [if_neg hlim]
    rw [hsid']
    simp only [List.append_eq]
    rw [ih']
    simp [reqSeq, cursorAfter, hsid', Nat.add_assoc, Scroll.iterReq]

/-- Helper: a non-initial scroll run over responses on which the driver
stops after `n` batches emits exactly the hits of those `n` whole batches,
issues exactly `n` requests, and ends normally. -/
theorem scrollLoop_stop (clear : String → Except EngineError Unit) (limit : Int) :
    ∀ (rs : List ScrollResp) (tail : List (Except EngineError ScrollResp))
      (n : Nat) (progress : Nat) (sid : String),
      (∀ r ∈ rs, r.scrollId.isSome) →
      specConsumed limit progress false (rs.map (·.hits)) = some n →
      (scrollLoop clear limit progress (some sid) (rs.map .ok ++ tail)).emitted =
        ((rs.take n).map (·.hits)).flatten ∧
      (scrollLoop clear limit progress (some sid) (rs.map .ok ++ tail)).requests.length = n ∧
      (scrollLoop clear limit progress (some sid) (rs.map .ok ++ tail)).total = none ∧
      (scrollLoop clear limit progress (some sid) (rs.map .ok ++ tail)).outcome = .ok () := by
  intro rs
  induction rs with
  | nil =>
    intro tail n progress sid _ hspec
    simp [specConsumed] at hspec
  | cons r rest ih =>
    intro tail n progress sid hsid hspec
    by_cases hre : r.hits.isEmpty = true
    · have hn : n = 1 := by
        simp [specConsumed, hre] at hspec
        omega
      subst hn
      simp only [List.map_cons, List.cons_append, scrollLoop]
      rw [if_neg (by simp [hre])]
      have hrnil : r.hits = [] := by
        simpa using hre
      simp [hrnil]
    · by_cases hlim : limit > 0 ∧ ((progress + r.hits.length : Nat) : Int) ≥ limit
      · have hn : n = 1 := by
          simp only [specConsumed, List.map_cons] at hspec
          rw [if_neg (by simp [hre])] at hspec
          rw [if_pos hlim] at hspec
          simpa using hspec.symm
        subst hn
        simp only [List.map_cons, List.cons_append, scrollLoop]
        rw [if_pos (Or.inr (by simp [hre]))]
        rw [if_pos hlim]
        simp
      · obtain ⟨m, hm, hnm⟩ :
            ∃ m, specConsumed limit (progress + r.hits.length) false (rest.map (·.hits)) = some m ∧
              n = m + 1 := by
          simp only [specConsumed, List.map_cons] at hspec
          rw [if_neg (by simp [hre])] at hspec
          rw [if_neg hlim] at hspec
          rcases hsc : specConsumed limit (progress + r.hits.length) false (rest.map (·.hits))
            with _ | m
          · rw [hsc] at hspec
            simp at hspec
          · rw [hsc] at hspec
            simp at hspec
            exact ⟨m, hsc, hspec.symm⟩
        subst hnm
        obtain ⟨sid', hsid'⟩ := Option.isSome_iff_exists.mp (hsid r (List.mem_cons_self r rest))
        have ih' := ih tail m (progress + r.hits.length) sid'
          (fun r' hr' => hsid r' (List.mem_cons_of_mem r hr')) hm
        simp only [List.map_cons, List.cons_append, scrollLoop]
        rw [if_pos (Or.inr (by simp [hre]))]
        rw [if_neg hlim]
        rw [hsid']
        simp only [List.append_eq]
        refine ⟨?_, ?_, ?_, ?_⟩
        · simp only [List.take_succ_cons, List.map_cons, List.flatten_cons]
          rw [ih'.1]
        · simp only [List.length_cons]
          rw [ih'.2.1]
        · rw [if_neg (by simp : ¬ (some sid = none))]
          simpa using ih'.2.2.1
        · exact ih'.2.2.2

end ScrollLemmas

section ScrollClaims

open Scroll

/-- C1 (amended).  With a numeric `options.limit`, `findStream`'s scroll
driver emits EVERY hit of each batch it consumes — it only re-checks the
limit after a whole batch has been written, so the emitted count is the
sum of the consumed batch sizes and equals `N` only when a batch boundary
lands exactly on `N` (the counterexample emits 2 documents for
`limit = 1`).  What does hold regardless of the scroll size: the driver
stops issuing search/scroll continuation requests as soon as the progress
counter reaches the limit (consuming `n` batches means exactly `n`
requests, none after the first limit-crossing batch, per the stopping
rule `specConsumed`), it then ends the stream normally, and it publishes
the first response's `hits.total`. -/
theorem c1_scroll_limit_amended :
    ∀ (limit : Int) (clear : String → Except EngineError Unit)
      (r0 : ScrollResp) (rest : List ScrollResp) (n : Nat),
      (∀ r ∈ r0 :: rest, r.scrollId.isSome) →
      specConsumed limit 0 true ((r0 :: rest).map (·.hits)) = some n →
      (findStreamDriver (some limit) clear ((r0 :: rest).map .ok)).emitted =
        (((r0 :: rest).take n).map (·.hits)).flatten ∧
      (findStreamDriver (some limit) clear ((r0 :: rest).map .ok)).requests.length = n ∧
      (findStreamDriver (some limit) clear ((r0 :: rest).map .ok)).total = some r0.total ∧
      (findStreamDriver (some limit) clear ((r0 :: rest).map .ok)).outcome = .ok () := by
  intro limit clear r0 rest n hsid hspec
  simp only [findStreamDriver, Option.getD, List.map_cons, scrollLoop]
  simp only [true_or, if_true]
  by_cases hlim : limit > 0 ∧ ((0 + r0.hits.length : Nat) : Int) ≥ limit
  · have hn : n = 1 := by
      simp only [specConsumed, List.map_cons] at hspec
      rw [if_neg (by simp)] at hspec
      rw [if_pos hlim] at hspec
      simpa using hspec.symm
    subst hn
    rw [if_pos hlim]
    simp
  · obtain ⟨m, hm, hnm⟩ :
        ∃ m, specConsumed limit (0 + r0.hits.length) false (rest.map (·.hits)) = some m ∧
          n = m + 1 := by
      simp only [specConsumed, List.map_cons] at hspec
      rw [if_neg (by simp)] at hspec
      rw [if_neg hlim] at hspec
      rcases hsc : specConsumed limit (0 + r0.hits.length) false (rest.map (·.hits)) with _ | m
      · rw [hsc] at hspec
        simp at hspec
      · rw [hsc] at hspec
        simp at hspec
        exact ⟨m, hsc, hspec.symm⟩
    subst hnm
    rw [if_neg hlim]
    obtain ⟨sid0, hsid0⟩ := Option.isSome_iff_exists.mp (hsid r0 (List.mem_cons_self r0 rest))
    rw [hsid0]
    have hstop := scrollLoop_stop clear limit rest [] m (0 + r0.hits.length) sid0
      (fun r' hr' => hsid r' (List.mem_cons_of_mem r0 hr')) hm
    rw [List.append_nil] at hstop
    simp only [List.append_eq]
    refine ⟨?_, ?_, ?_, ?_⟩
    · simp only [List.take_succ_cons, List.map_cons, List.flatten_cons]
      rw [hstop.1]
    · simp only [List.length_cons]
      rw [hstop.2.1]
    · rw [hstop.2.2.1]
      rfl
    · exact hstop.2.2.2

/-- C1 (witness): `c1_scroll_limit_amended` at `limit = 3` with batches
`[1,2]` and `[3,4]`: both batches are consumed whole (4 documents emitted
for a limit of 3), exactly 2 requests are issued and the stream ends. -/
theorem c1_witness :
    (findStreamDriver (some 3) (fun _ => .ok ())
        [.ok ⟨[1, 2], some "s", 10⟩, .ok ⟨[3, 4], some "s", 10⟩]).emitted = [1, 2, 3, 4] ∧
    (findStreamDriver (some 3) (fun _ => .ok ())
        [.ok ⟨[1, 2], some "s", 10⟩, .ok ⟨[3, 4], some "s", 10⟩]).requests.length = 2 ∧
    (findStreamDriver (some 3) (fun _ => .ok ())
        [.ok ⟨[1, 2], some "s", 10⟩, .ok ⟨[3, 4], some "s", 10⟩]).total = some 10 ∧
    (findStreamDriver (some 3) (fun _ => .ok ())
        [.ok ⟨[1, 2], some "s", 10⟩, .ok ⟨[3, 4], some "s", 10⟩]).outcome = .ok () := by
  have h := c1_scroll_limit_amended 3 (fun _ => .ok ()) ⟨[1, 2], some "s", 10⟩
    [⟨[3, 4], some "s", 10⟩] 2 (by decide) (by decide)
  simp only [List.map_cons, List.map_nil] at h
  refine ⟨?_, h.2.1, h.2.2.1, h.2.2.2⟩
  rw [h.1]
  decide

/-- C9 (amended).  When an error occurs during scrolling after a scroll
id has been obtained (here: after `k+1` successfully consumed batches
that never made the driver stop), a best-effort scroll-clear request for
the current cursor is issued as the final request, and then an error is
propagated to the stream — the ORIGINAL error when the clear succeeds,
but the CLEAR's own error when the clear itself fails (the source chains
`clearScroll(...).then(() => Promise.reject(err))` without catching the
clear's rejection). -/
theorem c9_clear_on_error_amended :
    ∀ (limit : Int) (clear : String → Except EngineError Unit)
      (r0 : ScrollResp) (rest : List ScrollResp) (e : EngineError)
      (tail : List (Except EngineError ScrollResp)),
      (∀ r ∈ r0 :: rest, r.scrollId.isSome) →
      ¬ (limit > 0 ∧ ((0 + r0.hits.length : Nat) : Int) ≥ limit) →
      specConsumed limit (0 + r0.hits.length) false (rest.map (·.hits)) = none →
      (findStreamDriver (some limit) clear ((r0 :: rest).map .ok ++ .error e :: tail)).requests =
        (.search : ScrollReq) ::
          reqSeq (r0.scrollId.getD "") rest ++
          [.scrollNext (cursorAfter (r0.scrollId.getD "") rest),
           .clearScroll (cursorAfter (r0.scrollId.getD "") rest)] ∧
      (findStreamDriver (some limit) clear ((r0 :: rest).map .ok ++ .error e :: tail)).outcome =
        (match clear (cursorAfter (r0.scrollId.getD "") rest) with
          | .ok _ => .error e
          | .error e2 => .error e2) := by
  intro limit clear r0 rest e tail hsid hlim hspec
  simp only [findStreamDriver, Option.getD, List.map_cons, List.cons_append, scrollLoop]
  simp only [true_or, if_true]
  rw [if_neg hlim]
  obtain ⟨sid0, hsid0⟩ := Option.isSome_iff_exists.mp (hsid r0 (List.mem_cons_self r0 rest))
  rw [hsid0]
  have hns := scrollLoop_noStop clear limit rest (.error e :: tail) (0 + r0.hits.length) sid0
    (fun r' hr' => hsid r' (List.mem_cons_of_mem r0 hr')) hspec
  simp only [List.append_eq]
  rw [hns]
  simp only [scrollLoop, iterReq]
  rcases hclear : clear (cursorAfter sid0 rest) with e2 | u <;>
    simp [hclear, hsid0, Option.getD]
end ScrollClaims

section ScrollClaims2

open Scroll

/-- C9 (witness): `c9_clear_on_error_amended` at a concrete run — one
successful batch, then a scrolling error while the clear itself fails:
the clear request is issued and the clear's error is the one propagated. -/
theorem c9_witness :
    (findStreamDriver (some 100) (fun _ => .error ⟨"clearfail"⟩)
        [.ok ⟨[1], some "s", 10⟩, .error ⟨"boom"⟩]).requests =
      [.search, .scrollNext "s", .clearScroll "s"] ∧
    (findStreamDriver (some 100) (fun _ => .error ⟨"clearfail"⟩)
        [.ok ⟨[1], some "s", 10⟩, .error ⟨"boom"⟩]).outcome = .error ⟨"clearfail"⟩ := by
  have h := c9_clear_on_error_amended 100 (fun _ => .error ⟨"clearfail"⟩)
    ⟨[1], some "s", 10⟩ [] ⟨"boom"⟩ [] (by decide) (by decide) (by decide)
  simp only [List.map_cons, List.map_nil, List.nil_append, List.cons_append] at h
  refine ⟨?_, ?_⟩
  · rw [h.1]
    decide
  · rw [h.2]

end ScrollClaims2

section AggClaims

open Agg

/-- Helper: a well-formed key is never one of the values that suppress the
`keys.unshift` (nor a parse failure). -/
theorem wfKey_extract (aggr : AggData) (ℓ : Nat) (nd : AggNode) (i : Int)
    (hℓ : ℓ < aggr.groupBy.length) (h : wfKey aggr ℓ nd = true) :
    ¬ extractResultKey aggr.groupBy nd (ℓ : Int) i = .null ∧
    ¬ extractResultKey aggr.groupBy nd (ℓ : Int) i = .undef := by
  unfold extractResultKey
  rw [if_pos (Int.natCast_nonneg ℓ)]
  simp only [Int.toNat_natCast]
  unfold wfKey at h
  rw [List.getElem?_eq_getElem hℓ] at h ⊢
  rcases hg : aggr.groupBy[ℓ] with ⟨tn, f, rgs, iv, tc, tcc⟩
  rw [hg] at h
  simp only at h ⊢
  split at h
  · rcases hk : nd.key with _ | v <;> simp_all
  · simp
  · rcases iv with _ | iv0
    · unfold dateKeyOf
      rcases hks : nd.keyAsString with _ | s
      · simp_all
      · rcases hj : Joda.fromJodaFormat s with _ | dd <;> simp_all
    · rcases iv0 with ⟨nn, bb⟩ | ⟨ss, bb⟩
      · rcases hk : nd.key with _ | v
        · simp_all
        · rcases v with s | kn
          · rcases hp : jsParseInt s with _ | pn <;> simp_all
          · simp_all
      · unfold dateKeyOf
        rcases hks : nd.keyAsString with _ | s
        · simp_all
        · rcases hj : Joda.fromJodaFormat s with _ | dd <;> simp_all
  · unfold dateKeyOf
    rcases hks : nd.keyAsString with _ | s
    · simp_all
    · rcases hj : Joda.fromJodaFormat s with _ | dd <;> simp_all
  · rcases hk : nd.key with _ | v <;> simp_all

end AggClaims

section AggClaims2

open Agg

/-- Helper: the bucket loop of `convertBucketResults`, with the parent's
extracted key, produces exactly the specification-side rows (zero-count
buckets dropped, the key prepended when it is a real key). -/
theorem convertBucketList_keys (aggr : AggData) (d : Nat) (key : RKey)
    (IH : ∀ (b : AggNode) (i : Nat), wfNode aggr (d + 1) b = true → wfKey aggr d b = true →
      ((convertBucketResults aggr b (d : Int) (i : Int)).toList).map (·.keys) =
        (relKeys aggr (d + 1) b).map (fun ks => keyOf aggr d b i :: ks)) :
    ∀ (subs : List AggNode) (i : Nat), wfList aggr d subs = true →
      (convertBucketList aggr key ((d : Int) - 1) i subs).map (·.keys) =
        (relKeysList aggr d i subs).map
          (fun ks => if key = .null ∨ key = .undef then ks else key :: ks) := by
  intro subs
  induction subs with
  | nil =>
    intro i _
    simp [convertBucketList, relKeysList]
  | cons b rest ihl =>
    intro i hwf
    simp only [wfList, Bool.and_eq_true] at hwf
    obtain ⟨⟨hkb, hnb⟩, hrest⟩ := hwf
    simp only [convertBucketList, relKeysList, List.map_append]
    rw [ihl (i + 1) hrest]
    by_cases hdc : b.docCount ≤ 0
    · rw [if_pos hdc, if_pos hdc]
      simp
    · rw [if_neg hdc, if_neg hdc]
      rw [Int.sub_add_cancel]
      congr 1
      by_cases hkey : key = RKey.null ∨ key = RKey.undef
      · have hcond : ¬ (key ≠ RKey.null ∧ key ≠ RKey.undef) := by
          rcases hkey with hkey | hkey <;> simp [hkey]
        rw [if_neg hcond]
        rw [IH b i hnb hkb]
        simp only [List.map_map]
        refine List.map_congr_left ?_
        intro ks _
        simp [hkey]
      · have hcond : key ≠ RKey.null ∧ key ≠ RKey.undef := by
          constructor <;> intro hx <;> exact hkey (by simp [hx])
        rw [if_pos hcond]
        rw [List.map_map]
        have : ((convertBucketResults aggr b (d : Int) (i : Int)).toList).map
            ((fun e => e.keys) ∘ (fun g => { g with keys := key :: g.keys })) =
            ((convertBucketResults aggr b (d : Int) (i : Int)).toList).map
            (fun g => key :: g.keys) := rfl
        rw [this]
        have h2 : ((convertBucketResults aggr b (d : Int) (i : Int)).toList).map
            (fun g => key :: g.keys) =
            (((convertBucketResults aggr b (d : Int) (i : Int)).toList).map (·.keys)).map
            (fun ks => key :: ks) := by
          rw [List.map_map]
          rfl
        rw [h2, IH b i hnb hkb]
        simp only [List.map_map]
        refine List.map_congr_left ?_
        intro ks _
        simp [hkey]

end AggClaims2

section AggClaims3

open Agg

/-- Helper: for a well-formed non-root node (a bucket of
`groupBy[d - 1]`), the converted rows' key lists are the
specification-side rows of its subtree, each with the node's own
extracted key prepended. -/
theorem convert_keys_node (aggr : AggData) :
    ∀ (k d : Nat) (nd : AggNode) (i : Nat),
      aggr.groupBy.length - d = k → 1 ≤ d → d ≤ aggr.groupBy.length →
      wfNode aggr d nd = true → wfKey aggr (d - 1) nd = true →
      ((convertBucketResults aggr nd ((d : Int) - 1) (i : Int)).toList).map (·.keys) =
        (relKeys aggr d nd).map (fun ks => keyOf aggr (d - 1) nd i :: ks) := by
  intro k
  induction k using Nat.strong_induction_on with
  | _ k IHk =>
  intro d nd i hk hd1 hdlen hwf hwfk
  have hcast : ((d - 1 : Nat) : Int) = (d : Int) - 1 := by
    omega
  have hIH : ∀ (b' : AggNode) (i' : Nat), wfNode aggr (d + 1) b' = true →
      wfKey aggr d b' = true →
      ((convertBucketResults aggr b' (d : Int) (i' : Int)).toList).map (·.keys) =
        (relKeys aggr (d + 1) b').map (fun ks => keyOf aggr d b' i' :: ks) := by
    intro b' i' hb hkb
    by_cases hlt : d < aggr.groupBy.length
    · have h := IHk (aggr.groupBy.length - (d + 1)) (by omega) (d + 1) b' i' rfl
        (by omega) (by omega) hb hkb
      have hc2 : ((d + 1 : Nat) : Int) - 1 = (d : Int) := by push_cast; ring
      rw [hc2] at h
      simpa using h
    · exfalso
      unfold wfKey at hkb
      rw [List.getElem?_eq_none (by omega)] at hkb
      simp at hkb
  rcases nd with ⟨dc, ky, kstr, shape, subs, me⟩
  have hkeyOf : keyOf aggr (d - 1) (AggNode.mk dc ky kstr shape subs me) i =
      extractResultKey aggr.groupBy (AggNode.mk dc ky kstr shape subs me) ((d : Int) - 1)
        (i : Int) := by
    unfold keyOf
    rw [hcast]
  rcases shape with _ | _ | _ <;> rcases subs with _ | ⟨b, bs⟩
  · simp only [convertBucketResults, BucketOut.toList, relKeys, List.map, convertMetricResults]
    rw [hkeyOf]
  · simp only [convertBucketResults, BucketOut.toList, relKeys, List.map, convertMetricResults]
    rw [hkeyOf]
  · simp only [convertBucketResults, BucketOut.toList, relKeys, List.map, convertMetricResults]
    rw [hkeyOf]
  · simp only [wfNode, Bool.and_eq_true, decide_eq_true_eq] at hwf
    obtain ⟨hlt, hwl⟩ := hwf
    have hext := wfKey_extract aggr (d - 1) (AggNode.mk dc ky kstr .own (b :: bs) me)
      (i : Int) (by omega) hwfk
    rw [hcast] at hext
    simp only [convertBucketResults, BucketOut.toList]
    rw [convertBucketList_keys aggr d _ hIH (b :: bs) 0 hwl]
    simp only [relKeys]
    refine List.map_congr_left ?_
    intro ks _
    rw [if_neg (by push_neg; exact ⟨fun hx => absurd hx hext.1, fun hx => absurd hx hext.2⟩)]
    rw [hkeyOf]
  · simp only [convertBucketResults, BucketOut.toList, relKeys, List.map, convertMetricResults]
    rw [hkeyOf]
  · simp only [wfNode, Bool.and_eq_true, decide_eq_true_eq] at hwf
    obtain ⟨hlt, hwl⟩ := hwf
    have hext := wfKey_extract aggr (d - 1) (AggNode.mk dc ky kstr .nested (b :: bs) me)
      (i : Int) (by omega) hwfk
    rw [hcast] at hext
    simp only [convertBucketResults, BucketOut.toList]
    rw [convertBucketList_keys aggr d _ hIH (b :: bs) 0 hwl]
    simp only [relKeys]
    refine List.map_congr_left ?_
    intro ks _
    rw [if_neg (by push_neg; exact ⟨fun hx => absurd hx hext.1, fun hx => absurd hx hext.2⟩)]
    rw [hkeyOf]

end AggClaims3

section AggClaims4

open Agg

/-- Helper: every specification-side row below a well-formed depth-`d`
node has one key per remaining `groupBy` level. -/
theorem relKeys_length (aggr : AggData) :
    ∀ (k d : Nat) (nd : AggNode), aggr.groupBy.length - d = k →
      wfNode aggr d nd = true →
      ∀ ks ∈ relKeys aggr d nd, ks.length = aggr.groupBy.length - d := by
  intro k
  induction k using Nat.strong_induction_on with
  | _ k IHk =>
  intro d nd hk hwf
  rcases nd with ⟨dc, ky, kstr, shape, subs, me⟩
  have hleaf : ∀ (hlen : (decide (d = aggr.groupBy.length) = true)),
      ∀ ks ∈ ([[]] : List (List RKey)), List.length ks = aggr.groupBy.length - d := by
    intro hlen ks hks
    simp at hks hlen
    simp [hks, hlen]
  have hnodeAux : ∀ (hlt : d < aggr.groupBy.length),
      ∀ (subs' : List AggNode), wfList aggr d subs' = true →
      ∀ (i : Nat), ∀ ks ∈ relKeysList aggr d i subs', ks.length = aggr.groupBy.length - d := by
    intro hlt subs'
    induction subs' with
    | nil =>
      intro _ i ks hks
      simp [relKeysList] at hks
    | cons b rest ihl =>
      intro hwl i ks hks
      simp only [wfList, Bool.and_eq_true] at hwl
      obtain ⟨⟨hkb, hnb⟩, hrest⟩ := hwl
      simp only [relKeysList, List.mem_append] at hks
      rcases hks with hks | hks
      · by_cases hdc : b.docCount ≤ 0
        · rw [if_pos hdc] at hks
          simp at hks
        · rw [if_neg hdc] at hks
          obtain ⟨ks0, hks0, rfl⟩ := List.mem_map.mp hks
          have hlen0 := IHk (aggr.groupBy.length - (d + 1)) (by omega) (d + 1) b rfl hnb
            ks0 hks0
          simp only [List.length_cons, hlen0]
          omega
      · exact ihl hrest (i + 1) ks hks
  rcases shape with _ | _ | _ <;> rcases subs with _ | ⟨b, bs⟩
  · exact fun ks hks => hleaf (by simpa [wfNode] using hwf) ks hks
  · exact fun ks hks => hleaf (by simpa [wfNode] using hwf) ks hks
  · exact fun ks hks => hleaf (by simpa [wfNode] using hwf) ks hks
  · simp only [wfNode, Bool.and_eq_true, decide_eq_true_eq] at hwf
    exact fun ks hks => hnodeAux hwf.1 (b :: bs) hwf.2 0 ks hks
  · exact fun ks hks => hleaf (by simpa [wfNode] using hwf) ks hks
  · simp only [wfNode, Bool.and_eq_true, decide_eq_true_eq] at hwf
    exact fun ks hks => hnodeAux hwf.1 (b :: bs) hwf.2 0 ks hks

end AggClaims4

section AggClaims5

open Agg

/-- C5.  For every aggregate with a (non-empty) `groupBy` list and every
well-formed engine aggregation response, `convertAggregateResult` returns
one result row per leaf reachable exclusively through buckets with a
positive document count — every bucket with a zero (or negative)
`doc_count` is dropped together with its entire subtree, so no output row
corresponds to a zero-count leaf — and each surviving row's `keys` array
has exactly one group key per `groupBy` entry, in original `groupBy`
order (the level-`d` bucket's extracted key at position `d`), as computed
by the specification-side `relKeys`. -/
theorem c5_aggregate_result_keys :
    ∀ (aggr : AggData) (nd : AggNode),
      aggr.groupBy ≠ [] →
      wfNode aggr 0 nd = true →
      ∃ es, convertAggregateResult nd aggr = .multi es ∧
        es.map (·.keys) = relKeys aggr 0 nd ∧
        ∀ e ∈ es, e.keys.length = aggr.groupBy.length := by
  intro aggr nd hne hwf
  have hlen : 0 < aggr.groupBy.length := List.length_pos.mpr hne
  have hlena := relKeys_length aggr (aggr.groupBy.length - 0) 0 nd rfl hwf
  have hIH0 : ∀ (b' : AggNode) (i' : Nat), wfNode aggr (0 + 1) b' = true →
      wfKey aggr 0 b' = true →
      ((convertBucketResults aggr b' ((0 : Nat) : Int) (i' : Int)).toList).map (·.keys) =
        (relKeys aggr (0 + 1) b').map (fun ks => keyOf aggr 0 b' i' :: ks) := by
    intro b' i' hb hkb
    have h := convert_keys_node aggr (aggr.groupBy.length - 1) 1 b' i' rfl (le_refl 1)
      hlen hb hkb
    have hc : ((1 : Nat) : Int) - 1 = ((0 : Nat) : Int) := by decide
    rw [hc] at h
    simpa using h
  rcases nd with ⟨dc, ky, kstr, shape, subs, me⟩
  rcases shape with _ | _ | _ <;> rcases subs with _ | ⟨b, bs⟩
  · simp [wfNode] at hwf
    omega
  · simp [wfNode] at hwf
    omega
  · simp [wfNode] at hwf
    omega
  · simp only [wfNode, Bool.and_eq_true, decide_eq_true_eq] at hwf
    have hlist := convertBucketList_keys aggr 0
      (extractResultKey aggr.groupBy (AggNode.mk dc ky kstr .own (b :: bs) me) (-1) (-1))
      hIH0 (b :: bs) 0 hwf.2
    have hkey0 : extractResultKey aggr.groupBy
        (AggNode.mk dc ky kstr .own (b :: bs) me) (-1) (-1) = .null := by
      unfold extractResultKey
      rw [if_neg (by decide)]
    have hc0 : ((0 : Nat) : Int) - 1 = (-1 : Int) := by decide
    rw [hc0] at hlist
    have hkeq : (convertBucketList aggr
        (extractResultKey aggr.groupBy (AggNode.mk dc ky kstr .own (b :: bs) me) (-1) (-1))
        (-1) 0 (b :: bs)).map (·.keys) =
        relKeys aggr 0 (AggNode.mk dc ky kstr .own (b :: bs) me) := by
      rw [hlist]
      simp only [hkey0, relKeys]
      simp
    refine ⟨_, rfl, hkeq, ?_⟩
    intro e he
    have hm : e.keys ∈ relKeys aggr 0 (AggNode.mk dc ky kstr .own (b :: bs) me) := by
      rw [← hkeq]
      exact List.mem_map_of_mem _ he
    simpa using hlena e.keys hm
  · simp [wfNode] at hwf
    omega
  · simp only [wfNode, Bool.and_eq_true, decide_eq_true_eq] at hwf
    have hlist := convertBucketList_keys aggr 0
      (extractResultKey aggr.groupBy (AggNode.mk dc ky kstr .nested (b :: bs) me) (-1) (-1))
      hIH0 (b :: bs) 0 hwf.2
    have hkey0 : extractResultKey aggr.groupBy
        (AggNode.mk dc ky kstr .nested (b :: bs) me) (-1) (-1) = .null := by
      unfold extractResultKey
      rw [if_neg (by decide)]
    have hc0 : ((0 : Nat) : Int) - 1 = (-1 : Int) := by decide
    rw [hc0] at hlist
    have hkeq : (convertBucketList aggr
        (extractResultKey aggr.groupBy (AggNode.mk dc ky kstr .nested (b :: bs) me) (-1) (-1))
        (-1) 0 (b :: bs)).map (·.keys) =
        relKeys aggr 0 (AggNode.mk dc ky kstr .nested (b :: bs) me) := by
      rw [hlist]
      simp only [hkey0, relKeys]
      simp
    refine ⟨_, rfl, hkeq, ?_⟩
    intro e he
    have hm : e.keys ∈ relKeys aggr 0 (AggNode.mk dc ky kstr .nested (b :: bs) me) := by
      rw [← hkeq]
      exact List.mem_map_of_mem _ he
    simpa using hlena e.keys hm

end AggClaims5

/-- C5 (witness): `c5_aggregate_result_keys` at the concrete
terms-then-range example response with zero-count buckets. -/
theorem c5_witness :
    (Agg.exAggSpec.groupBy ≠ [] ∧ Agg.wfNode Agg.exAggSpec 0 Agg.exRespTree = true) ∧
    ∃ es, Agg.convertAggregateResult Agg.exRespTree Agg.exAggSpec = .multi es ∧
      es.map (·.keys) = Agg.relKeys Agg.exAggSpec 0 Agg.exRespTree ∧
      ∀ e ∈ es, e.keys.length = Agg.exAggSpec.groupBy.length :=
  ⟨⟨by decide, by decide⟩,
    c5_aggregate_result_keys Agg.exAggSpec Agg.exRespTree (by decide) (by decide)⟩

section SchemaClaims

open SchemaConv

theorem evolves_refl (N : Nat) (σ : Store) : Evolves N σ σ := by
  intro h
  exact ⟨fun _ _ => rfl, h⟩

theorem evolves_trans {N : Nat} {σ σ' σ'' : Store} (h1 : Evolves N σ σ')
    (h2 : Evolves N σ' σ'') : Evolves N σ σ'' := by
  intro h
  obtain ⟨f1, hi1⟩ := h1 h
  obtain ⟨f2, hi2⟩ := h2 hi1
  exact ⟨fun x hx => (f2 x hx).trans (f1 x hx), hi2⟩

/-- `SM.read` leaves the store unchanged. -/
theorem read_state (a : Nat) (σ : Store) : ((SM.read a) σ).2 = σ := by
  unfold SM.read
  rcases σ.mem a with _ | nd <;> rfl

/-- What a successful `SM.read` tells us. -/
theorem read_ok {a : Nat} {σ σ1 : Store} {nd : SchemaNode}
    (h : (SM.read a) σ = (.ok nd, σ1)) : σ.mem a = some nd ∧ σ1 = σ := by
  unfold SM.read at h
  rcases hm : σ.mem a with _ | nd0 <;> rw [hm] at h
  · cases h
  · rw [Prod.mk.injEq] at h
    obtain ⟨h1, h2⟩ := h
    exact ⟨by rw [Except.ok.inj h1], h2.symm⟩

theorem evolves_read_bind {β : Type} (N : Nat) (a : Nat) (f : SchemaNode → SM β) (σ : Store)
    (h : ∀ nd, σ.mem a = some nd → Evolves N σ ((f nd σ).2)) :
    Evolves N σ (((SM.read a >>= f) σ).2) := by
  show Evolves N σ ((SM.bind (SM.read a) f σ).2)
  unfold SM.bind
  rcases hm : (SM.read a) σ with ⟨r, σ1⟩
  rcases r with e | nd
  · have hσ : σ1 = σ := by
      have := read_state a σ
      rw [hm] at this
      exact this
    rw [hσ]
    exact evolves_refl N σ
  · obtain ⟨hmem, hσ⟩ := read_ok hm
    subst hσ
    exact h nd hmem

/-- Writing a node with unchanged child pointers over an existing node at
a (conditionally) high address preserves the invariant and the low heap. -/
theorem write_evolves (N : Nat) (σ : Store) (a : Nat) (nd nd0 : SchemaNode)
    (hmem : σ.mem a = some nd0) (hch : nodeChildren nd = nodeChildren nd0)
    (ha : HInv N σ → N ≤ a) : Evolves N σ (σ.write a nd) := by
  intro h
  obtain ⟨hn, hcl, hwf⟩ := h
  have haN := ha ⟨hn, hcl, hwf⟩
  have halt : a < σ.next := by
    by_contra hcon
    rw [hwf a (by omega)] at hmem
    cases hmem
  refine ⟨?_, ?_, ?_, ?_⟩
  · intro x hx
    have : ¬ x = a := by omega
    simp [Store.write, this]
  · exact hn
  · intro b m hb hbN c hc
    by_cases hba : b = a
    · subst hba
      simp [Store.write] at hb
      rw [← hb] at hc
      rw [hch] at hc
      exact hcl _ nd0 hmem hbN c hc
    · simp [Store.write, hba] at hb
      exact hcl b m hb hbN c hc
  · intro b hb
    simp only [Store.write] at hb ⊢
    have : ¬ b = a := by omega
    simp only [this, if_false]
    exact hwf b hb

/-- Allocating a node whose children are (conditionally) high preserves
the invariant and the low heap. -/
theorem alloc_evolves (N : Nat) (σ : Store) (nd : SchemaNode)
    (hc : HInv N σ → ∀ c ∈ nodeChildren nd, N ≤ c) :
    Evolves N σ ((σ.alloc nd).2) := by
  intro h
  obtain ⟨hn, hcl, hwf⟩ := h
  refine ⟨?_, ?_, ?_, ?_⟩
  · intro x hx
    have : ¬ x = σ.next := by omega
    simp [Store.alloc, this]
  · simp [Store.alloc]
    omega
  · intro b m hb hbN c hcm
    by_cases hba : b = σ.next
    · subst hba
      simp [Store.alloc] at hb
      rw [← hb] at hcm
      exact hc ⟨hn, hcl, hwf⟩ c hcm
    · simp [Store.alloc, hba] at hb
      exact hcl b m hb hbN c hcm
  · intro b hb
    simp [Store.alloc] at hb
    have : ¬ b = σ.next := by omega
    simp [Store.alloc, this]
    exact hwf b (by omega)

/-- A `foldlM` whose step never changes the store never changes the
store. -/
theorem foldlM_state {α β : Type} (f : β → α → SM β)
    (hf : ∀ b x σ, ((f b x) σ).2 = σ) :
    ∀ (l : List α) (b : β) (σ : Store), ((l.foldlM f b) σ).2 = σ := by
  intro l
  induction l with
  | nil =>
    intro b σ
    rfl
  | cons x rest ih =>
    intro b σ
    show ((SM.bind (f b x) fun b' => rest.foldlM f b') σ).2 = σ
    unfold SM.bind
    rcases hm : (f b x) σ with ⟨r, σ1⟩
    have hσ1 : σ1 = σ := by
      have := hf b x σ
      rw [hm] at this
      exact this
    rcases r with e | b'
    · exact hσ1
    · rw [hσ1]
      exact ih b' σ

end SchemaClaims

section SchemaClaims2

open SchemaConv

/-- A `foldlM` over the schema-conversion monad preserves the heap
invariant (each step evolves) and any step-invariant property of the
accumulator. -/
theorem foldlM_evolves_inv {α β : Type} (N : Nat) (P : β → Prop) (f : β → α → SM β) :
    ∀ (l : List α),
    (∀ (b : β), ∀ x ∈ l, ∀ (σ : Store), Evolves N σ (((f b x) σ).2) ∧
      (∀ r σ', (f b x) σ = (.ok r, σ') → HInv N σ → P b → P r)) →
    ∀ (b : β) (σ : Store),
      Evolves N σ (((l.foldlM f b) σ).2) ∧
      (∀ r σ', (l.foldlM f b) σ = (.ok r, σ') → HInv N σ → P b → P r) := by
  intro l
  induction l with
  | nil =>
    intro _ b σ
    refine ⟨evolves_refl N σ, ?_⟩
    intro r σ' hr _ hb
    have h1 : b = r := Except.ok.inj (congrArg Prod.fst hr)
    rw [← h1]
    exact hb
  | cons x rest ih =>
    intro hf b σ
    have hfx := hf b x (by simp) σ
    show Evolves N σ (((SM.bind (f b x) fun b' => rest.foldlM f b') σ)).2 ∧ _
    unfold SM.bind
    rcases hm : (f b x) σ with ⟨r1, σ1⟩
    have h1 : Evolves N σ σ1 := by
      have := hfx.1
      rw [hm] at this
      exact this
    rcases r1 with e | b1
    · refine ⟨h1, ?_⟩
      intro r σ' hr
      have hr' : (SM.bind (f b x) fun init => List.foldlM f init rest) σ = (.ok r, σ') := hr
      unfold SM.bind at hr'
      rw [hm] at hr'
      simp at hr'
    · have hi := ih (fun b' x' hx' σ' => hf b' x' (List.mem_cons_of_mem x hx') σ') b1 σ1
      refine ⟨evolves_trans h1 hi.1, ?_⟩
      intro r σ' hr hN hPb
      have hr' : (SM.bind (f b x) fun init => List.foldlM f init rest) σ = (.ok r, σ') := hr
      unfold SM.bind at hr'
      rw [hm] at hr'
      have hPb1 : P b1 := hfx.2 b1 σ1 hm hN hPb
      exact hi.2 r σ' hr' (h1 hN).2 hPb1

/-- `hasSubfieldsIndexed` never changes the store. -/
theorem hasSubfields_state : ∀ (fuel a : Nat) (σ : Store),
    ((hasSubfieldsIndexed fuel a) σ).2 = σ := by
  intro fuel
  induction fuel with
  | zero =>
    intro a σ
    rfl
  | succ fuel ih =>
    intro a σ
    show ((SM.bind (SM.read a) _) σ).2 = σ
    unfold SM.bind
    rcases hm : (SM.read a) σ with ⟨r, σ1⟩
    have hσ1 : σ1 = σ := by
      have := read_state a σ
      rw [hm] at this
      exact this
    rcases r with e | nd
    · exact hσ1
    · rw [hσ1]
      dsimp only
      split
      · rfl
      · apply foldlM_state
        intro b c σ'
        dsimp only
        split
        · rfl
        · exact ih c σ'

end SchemaClaims2

section SchemaClaims3

open SchemaConv

/-- One-sided evolution: frame below `N` plus the re-established heap
invariant (the consequent of `Evolves`, for use once `HInv` is known). -/
def Steps (N : Nat) (σ σ' : Store) : Prop :=
  (∀ x, x < N → σ'.mem x = σ.mem x) ∧ HInv N σ'

theorem steps_refl {N : Nat} {σ : Store} (h0 : HInv N σ) : Steps N σ σ :=
  ⟨fun _ _ => rfl, h0⟩

theorem steps_trans {N : Nat} {σ σ' σ'' : Store} (h1 : Steps N σ σ')
    (h2 : Steps N σ' σ'') : Steps N σ σ'' :=
  ⟨fun x hx => (h2.1 x hx).trans (h1.1 x hx), h2.2⟩

theorem steps_of_eq {N : Nat} {σ σ' : Store} (h : σ' = σ) (h0 : HInv N σ) :
    Steps N σ σ' := by
  rw [h]
  exact steps_refl h0

theorem read_steps {N : Nat} (a : Nat) {σ : Store} (h0 : HInv N σ) :
    Steps N σ ((SM.read a σ).2) := by
  rw [read_state]
  exact steps_refl h0

theorem write_steps {N : Nat} {σ : Store} {a : Nat} {nd nd0 : SchemaNode}
    (h0 : HInv N σ) (hmem : σ.mem a = some nd0)
    (hch : nodeChildren nd = nodeChildren nd0) (haN : N ≤ a) :
    Steps N σ (σ.write a nd) :=
  write_evolves N σ a nd nd0 hmem hch (fun _ => haN) h0

theorem alloc_steps {N : Nat} {σ : Store} {nd : SchemaNode} (h0 : HInv N σ)
    (hc : ∀ c ∈ nodeChildren nd, N ≤ c) : Steps N σ ((σ.alloc nd).2) :=
  alloc_evolves N σ nd (fun _ => hc) h0

/-- Weakest-precondition-style rule for a bind: the first stage steps, and
from every successful intermediate state the continuation steps and
establishes the postcondition `Q` on successful results. -/
theorem bind_steps {α β : Type} (N : Nat) (m : SM α) (f : α → SM β) (σ : Store)
    (Q : β → Store → Prop)
    (h1 : Steps N σ ((m σ).2))
    (h2 : ∀ x σ1, m σ = (.ok x, σ1) → HInv N σ1 → Steps N σ1 ((f x σ1).2) ∧
          ∀ y σ2, f x σ1 = (.ok y, σ2) → Q y σ2) :
    Steps N σ (((m >>= f) σ).2) ∧ ∀ y σ2, (m >>= f) σ = (.ok y, σ2) → Q y σ2 := by
  show Steps N σ (((SM.bind m f) σ).2) ∧ ∀ y σ2, (SM.bind m f) σ = (.ok y, σ2) → Q y σ2
  unfold SM.bind
  rcases hm : m σ with ⟨r, σ1⟩
  have h1' : Steps N σ σ1 := by
    rw [hm] at h1
    exact h1
  rcases r with e | x
  · refine ⟨h1', ?_⟩
    intro y σ2 hy
    simp at hy
  · have h2' := h2 x σ1 hm h1'.2
    exact ⟨steps_trans h1' h2'.1, h2'.2⟩

/-- `mkExtraSchema` preserves the child pointers of the node it decorates. -/
theorem mkExtra_children (nd : SchemaNode) (ci : JsIdx) (e : ExtraIdx) :
    nodeChildren (mkExtraSchema nd ci e) = nodeChildren nd := by
  unfold mkExtraSchema
  rcases e.analyzer with _ | an <;> rfl

end SchemaClaims3

section SchemaClaims4

open SchemaConv

/-- The tail of `findSubschemaSchemas` after the array element-index
propagation (definitionally equal to the join point of its `do` block). -/
def findSubRest (extraIndexes : List ExtraIdx) (a : Nat) (path : String) :
    SM (SchemaNode × List (String × SchemaNode)) := do
  let nd ← SM.read a
  let subschemaIndex := nd.index
  let convIdx := commonIndexToESIndex nd.index nd.type_
  SM.write a { nd with index := convIdx }
  let nd' := { nd with index := convIdx }
  let matching := extraIndexes.filter fun ei => ei.field = path
  if ¬ matching.isEmpty ∧ ¬ VALUE_SCHEMA_TYPES.contains nd.type_ then
    SM.throw "Cannot apply extra index to a non-value schema type"
  else do
    let step := fun (acc : SchemaNode × List (String × SchemaNode) × Bool) (ei : ExtraIdx) => do
      let (defaultSchema, extraSchemas, tookDefault) := acc
      let eiConv := commonIndexToESIndex ei.index nd.type_
      let extraSchema := mkExtraSchema nd' eiConv ei
      if (ei.name.getD "") = "" ∧ subschemaIndex = .undef then
        if ¬ tookDefault then
          SM.pure (extraSchema, extraSchemas, true)
        else
          SM.throw ("Multiple extra schemas tried to register as the default schema for " ++ path)
      else
        SM.pure (defaultSchema, extraSchemas ++ [(multiFieldName ei eiConv, extraSchema)], tookDefault)
    let (defaultSchema, extraSchemas, _) ← matching.foldlM step (nd', [], false)
    SM.pure (defaultSchema, extraSchemas)

/-- The tail of `findSubschemaSchemas` steps (writes only at the given high
address), and on success the default schema's child pointers all stay in
the high region. -/
theorem findSubRest_steps (N : Nat) (ei : List ExtraIdx) (a : Nat) (path : String)
    (haN : N ≤ a) : ∀ τ : Store, HInv N τ →
    Steps N τ (((findSubRest ei a path) τ).2) ∧
    ∀ y σ2, (findSubRest ei a path) τ = (.ok y, σ2) →
      ∀ c ∈ nodeChildren y.1, N ≤ c := by
  intro τ h0
  unfold findSubRest
  refine bind_steps N (SM.read a) _ τ
    (fun (y : SchemaNode × List (String × SchemaNode)) (_ : Store) =>
      ∀ c ∈ nodeChildren y.1, N ≤ c)
    (read_steps a h0) ?_
  intro nd σ1 hm1 h01
  obtain ⟨hmem1, hσ1⟩ := read_ok hm1
  rw [hσ1]
  dsimp only
  have hchn : ∀ c ∈ nodeChildren nd, N ≤ c := h0.2.1 a nd hmem1 haN
  refine bind_steps N (SM.write a _) _ τ _ (write_steps h0 hmem1 rfl haN) ?_
  intro u σ2 hm2 h02
  split
  · exact ⟨steps_refl h02, fun y σ3 hy => by simp [SM.throw] at hy⟩
  · refine bind_steps N _ _ σ2 _
      (steps_of_eq (foldlM_state _ (fun b x σc => by
        rcases b with ⟨d, es2, t⟩
        dsimp only
        repeat' split
        all_goals rfl) _ _ σ2) h02) ?_
    intro p σ3 hmf h03
    have hP : nodeChildren p.1 = nodeChildren nd := by
      refine (foldlM_evolves_inv N (fun acc => nodeChildren acc.1 = nodeChildren nd) _
        ((ei.filter fun e => e.field = path)) ?_ _ σ2).2 p σ3 hmf h02 rfl
      intro b x hx σc
      constructor
      · intro hc
        refine steps_of_eq ?_ hc
        rcases b with ⟨d, es2, t⟩
        dsimp only
        repeat' split
        all_goals rfl
      · intro r σ' heq hC hPb
        rcases b with ⟨d, es2, t⟩
        dsimp only at heq hPb ⊢
        split at heq
        · split at heq
          · have hr := Except.ok.inj (congrArg Prod.fst heq)
            rw [← hr]
            exact (mkExtra_children _ _ _).trans rfl
          · simp [SM.throw] at heq
        · have hr := Except.ok.inj (congrArg Prod.fst heq)
          rw [← hr]
          exact hPb
    rcases p with ⟨ds, es2, tk⟩
    dsimp only
    refine ⟨steps_refl h03, ?_⟩
    intro y σ4 hy
    have hy1 : (ds, es2) = y := Except.ok.inj (congrArg Prod.fst hy)
    rw [← hy1]
    intro c hc
    dsimp only at hP
    rw [hP] at hc
    exact hchn c hc


/-- `findSubschemaSchemas` preserves the heap invariant and the low heap;
on success the default schema's child pointers are all high. -/
theorem findSubschema_evolves (N : Nat) (ei : List ExtraIdx) (a : Nat) (path : String)
    (σ : Store) (ha : HInv N σ → N ≤ a) :
    Evolves N σ (((findSubschemaSchemas ei a path) σ).2) ∧
    ∀ y σ2, (findSubschemaSchemas ei a path) σ = (.ok y, σ2) →
      HInv N σ → ∀ c ∈ nodeChildren y.1, N ≤ c := by
  have main : ∀ _ : HInv N σ,
      Steps N σ (((findSubschemaSchemas ei a path) σ).2) ∧
      ∀ y σ2, (findSubschemaSchemas ei a path) σ =
          (.ok y, σ2) → ∀ c ∈ nodeChildren y.1, N ≤ c := by
    intro h0
    have haN := ha h0
    have hrest := findSubRest_steps N ei a path haN
    unfold findSubschemaSchemas
    refine bind_steps N (SM.read a) _ σ
      (fun (y : SchemaNode × List (String × SchemaNode)) (_ : Store) =>
        ∀ c ∈ nodeChildren y.1, N ≤ c)
      (read_steps a h0) ?_
    intro nd σ1 hm1 h01
    obtain ⟨hmem1, hσ1⟩ := read_ok hm1
    rw [hσ1]
    dsimp only
    have hchn : ∀ c ∈ nodeChildren nd, N ≤ c := h0.2.1 a nd hmem1 haN
    by_cases hty : nd.type_ = "array"
    · rw [if_pos hty]
      rcases hel : nd.elements with _ | ea
      · refine bind_steps N (SM.pure ()) _ σ _ (steps_refl h0) ?_
        intro u σ2 hm2 h02
        exact hrest σ2 h02
      · have hea : N ≤ ea := hchn ea (by simp [nodeChildren, hel])
        refine bind_steps N (SM.read ea) _ σ _ (read_steps ea h0) ?_
        intro end_ σ2 hm2 h02
        obtain ⟨hmem2, hσ2⟩ := read_ok hm2
        rw [hσ2]
        by_cases hui : end_.index = JsIdx.undef
        · rw [if_pos hui]
          refine bind_steps N (SM.write ea _) _ σ _ (write_steps h0 hmem2 rfl hea) ?_
          intro u σ3 hm3 h03
          exact hrest σ3 h03
        · rw [if_neg hui]
          refine bind_steps N (SM.pure ()) _ σ _ (steps_refl h0) ?_
          intro u σ3 hm3 h03
          exact hrest σ3 h03
    · rw [if_neg hty]
      refine bind_steps N (SM.pure ()) _ σ _ (steps_refl h0) ?_
      intro u σ2 hm2 h02
      exact hrest σ2 h02
  exact ⟨fun h0 => (main h0).1, fun y σ2 heq h0 => (main h0).2 y σ2 heq⟩

end SchemaClaims4

section SchemaClaims5

open SchemaConv

/-- Tail of a `deepCopy` step after the properties and elements copies:
copying `values` and allocating the clone stays in the high region and
returns a high address. -/
theorem afterElems (N fuel : Nat)
    (ih : ∀ (N a : Nat) (σ : Store), HInv N σ →
      Steps N σ ((deepCopy fuel a σ).2) ∧
      ∀ r σ', deepCopy fuel a σ = (.ok r, σ') → N ≤ r)
    (nd : SchemaNode) (props : List (String × Nat)) (elems : Option Nat)
    (σe : Store) (h0e : HInv N σe)
    (hprops : ∀ c ∈ props.map (fun q => q.2), N ≤ c)
    (helems : ∀ c ∈ elems.toList, N ≤ c) :
    Steps N σe (((match nd.values with
        | some va => do
          let c ← deepCopy fuel va
          let y ← SM.pure (some c)
          SM.alloc { nd with properties := props, elements := elems, values := y }
        | none => do
          let y ← SM.pure (none : Option Nat)
          SM.alloc { nd with properties := props, elements := elems, values := y }) σe).2) ∧
    ∀ y σ2, (match nd.values with
        | some va => do
          let c ← deepCopy fuel va
          let y ← SM.pure (some c)
          SM.alloc { nd with properties := props, elements := elems, values := y }
        | none => do
          let y ← SM.pure (none : Option Nat)
          SM.alloc { nd with properties := props, elements := elems, values := y }) σe
        = (.ok y, σ2) → N ≤ y := by
  have hcore : ∀ (vals : Option Nat) (σv : Store), HInv N σv →
      (∀ c ∈ vals.toList, N ≤ c) →
      Steps N σv ((SM.alloc { nd with properties := props, elements := elems, values := vals } σv).2) ∧
      ∀ y σ2, SM.alloc { nd with properties := props, elements := elems, values := vals } σv = (.ok y, σ2) → N ≤ y := by
    intro vals σv h0v hvals
    have hch : ∀ c ∈ nodeChildren { nd with properties := props, elements := elems, values := vals }, N ≤ c := by
      intro c hc
      simp only [nodeChildren, List.mem_append] at hc
      rcases hc with (hc | hc) | hc
      · exact hprops c hc
      · exact helems c hc
      · exact hvals c hc
    refine ⟨alloc_steps h0v hch, ?_⟩
    intro y σ2 hy
    have hyv : σv.next = y := Except.ok.inj (congrArg Prod.fst hy)
    rw [← hyv]
    exact h0v.1
  rcases hval : nd.values with _ | va
  · dsimp only
    refine bind_steps N (SM.pure (none : Option Nat)) _ σe _ (steps_refl h0e) ?_
    intro vals σv hmv h0v
    have hvn : (none : Option Nat) = vals := Except.ok.inj (congrArg Prod.fst hmv)
    refine hcore vals σv h0v ?_
    rw [← hvn]
    intro c hc
    simp at hc
  · dsimp only
    refine bind_steps N (deepCopy fuel va) _ σe _ ((ih N va σe h0e).1) ?_
    intro c σd hmc h0d
    refine bind_steps N (SM.pure (some c)) _ σd _ (steps_refl h0d) ?_
    intro vals σv hmv h0v
    have hcv : some c = vals := Except.ok.inj (congrArg Prod.fst hmv)
    refine hcore vals σv h0v ?_
    rw [← hcv]
    intro x hxx
    simp at hxx
    rw [hxx]
    exact (ih N va σe h0e).2 c σd hmc

/-- `deepCopy` only reads existing nodes and allocates fresh ones, so it
preserves the heap invariant and the low heap, and the returned root copy
address lies in the high region. -/
theorem deepCopy_steps : ∀ (fuel : Nat) (N a : Nat) (σ : Store), HInv N σ →
    Steps N σ ((deepCopy fuel a σ).2) ∧
    ∀ r σ', deepCopy fuel a σ = (.ok r, σ') → N ≤ r := by
  intro fuel
  induction fuel with
  | zero =>
    intro N a σ h0
    exact ⟨steps_refl h0, fun r σ' hr => by simp [deepCopy, SM.throw] at hr⟩
  | succ fuel ih =>
    intro N a σ h0
    simp only [deepCopy]
    refine bind_steps N (SM.read a) _ σ (fun (r : Nat) (_ : Store) => N ≤ r)
      (read_steps a h0) ?_
    intro nd σ1 hm1 h01
    obtain ⟨hmem1, hσ1⟩ := read_ok hm1
    rw [hσ1]
    dsimp only
    have hfold := foldlM_evolves_inv N
      (fun (acc : List (String × Nat)) => ∀ c ∈ acc.map (fun q => q.2), N ≤ c)
      (fun acc p => do
        let c ← deepCopy fuel p.2
        SM.pure (acc ++ [(p.1, c)]))
      nd.properties ?hf
    case hf =>
      intro b x hx σc
      constructor
      · intro hc
        refine (bind_steps N (deepCopy fuel x.2) _ σc (fun _ _ => True)
          ((ih N x.2 σc hc).1) ?_).1
        intro c σd hmc h0d
        exact ⟨steps_refl h0d, fun y σ2 hy => trivial⟩
      · intro r σ' heq hc hPb
        have heq' : (SM.bind (deepCopy fuel x.2) fun c => SM.pure (b ++ [(x.1, c)])) σc
            = (.ok r, σ') := heq
        unfold SM.bind at heq'
        rcases hmc : deepCopy fuel x.2 σc with ⟨rc, σd⟩
        rw [hmc] at heq'
        rcases rc with e | c
        · simp at heq'
        · have hr : b ++ [(x.1, c)] = r := Except.ok.inj (congrArg Prod.fst heq')
          rw [← hr]
          intro q hq
          simp only [List.map_append, List.mem_append] at hq
          rcases hq with hq | hq
          · exact hPb q hq
          · simp at hq
            rw [hq]
            exact (ih N x.2 σc hc).2 c σd hmc
    refine bind_steps N _ _ σ _ ((hfold [] σ).1 h0) ?_
    intro props σp hmf h0p
    have hprops : ∀ c ∈ props.map (fun q => q.2), N ≤ c :=
      (hfold [] σ).2 props σp hmf h0 (by simp)
    rcases hel : nd.elements with _ | ea
    · dsimp only
      refine bind_steps N (SM.pure (none : Option Nat)) _ σp _ (steps_refl h0p) ?_
      intro elems σe hme h0e
      have helOk : (none : Option Nat) = elems := Except.ok.inj (congrArg Prod.fst hme)
      have helems : ∀ c ∈ elems.toList, N ≤ c := by
        rw [← helOk]
        intro c hc
        simp at hc
      exact afterElems N fuel ih nd props elems σe h0e hprops helems
    · dsimp only
      refine bind_steps N (deepCopy fuel ea) _ σp _ ((ih N ea σp h0p).1) ?_
      intro c σd hmc h0d
      refine bind_steps N (SM.pure (some c)) _ σd _ (steps_refl h0d) ?_
      intro elems σe hme h0e
      have hce : some c = elems := Except.ok.inj (congrArg Prod.fst hme)
      have helems : ∀ x ∈ elems.toList, N ≤ x := by
        rw [← hce]
        intro x hxx
        simp at hxx
        rw [hxx]
        exact (ih N ea σp h0p).2 c σd hmc
      exact afterElems N fuel ih nd props elems σe h0e hprops helems

end SchemaClaims5

section SchemaClaims6

open SchemaConv

/-- `bind_steps` specialised to a trivial postcondition. -/
theorem bind_steps1 {α β : Type} (N : Nat) (m : SM α) (f : α → SM β) (σ : Store)
    (h1 : Steps N σ ((m σ).2))
    (h2 : ∀ x σ1, m σ = (.ok x, σ1) → HInv N σ1 → Steps N σ1 ((f x σ1).2)) :
    Steps N σ (((m >>= f) σ).2) :=
  (bind_steps N m f σ (fun _ _ => True) h1
    (fun x σ1 hm h => ⟨h2 x σ1 hm h, fun _ _ _ => trivial⟩)).1

/-- The conversion pass (`convertSubschema` together with
`convertSubschemaControl`) preserves the heap invariant and never touches
the low heap: its only writes go through `findSubschemaSchemas` at high
addresses. -/
theorem convert_steps : ∀ (fuel : Nat) (N : Nat),
    (∀ (ei : List ExtraIdx) (a : Nat) (path : String) (σ : Store), HInv N σ → N ≤ a →
      Steps N σ ((convertSubschema fuel ei a path σ).2)) ∧
    (∀ (ei : List ExtraIdx) (sn : SchemaNode) (a : Nat) (path : String) (σ : Store),
      HInv N σ → N ≤ a → (∀ c ∈ nodeChildren sn, N ≤ c) →
      Steps N σ ((convertSubschemaControl fuel ei sn a path σ).2)) := by
  intro fuel
  induction fuel with
  | zero =>
    intro N
    exact ⟨fun ei a path σ h0 _ => steps_refl h0,
      fun ei sn a path σ h0 _ _ => steps_refl h0⟩
  | succ fuel ih =>
    intro N
    constructor
    · intro ei a path σ h0 haN
      simp only [convertSubschema]
      refine bind_steps1 N (findSubschemaSchemas ei a path) _ σ
        ((findSubschema_evolves N ei a path σ (fun _ => haN)).1 h0) ?_
      intro p σ1 hmf h01
      have hds : ∀ c ∈ nodeChildren p.1, N ≤ c :=
        (findSubschema_evolves N ei a path σ (fun _ => haN)).2 p σ1 hmf h0
      rcases p with ⟨ds, es⟩
      refine bind_steps1 N (SM.read a) _ σ1 (read_steps a h01) ?_
      intro nd σ2 hm2 h02
      obtain ⟨hmem2, hσ2⟩ := read_ok hm2
      rw [hσ2]
      have htail : ∀ (y : MVal × Option String) (σk : Store), HInv N σk →
          Steps N σk (((match nd.esMapping with
            | some patch =>
              match y.1 with
              | MVal.obj fs => SM.pure (MVal.obj (mergePatch fs patch), y.2)
              | other => SM.pure (other, y.2)
            | none => SM.pure (y.1, y.2)) : SM (MVal × Option String)) σk).2 := by
        intro y σk hk
        rcases nd.esMapping with _ | patch
        · exact steps_refl hk
        · rcases y.1 <;> exact steps_refl hk
      split
      · refine bind_steps1 N _ _ σ1 (steps_of_eq rfl h01) ?_
        intro mapping σ3 hm3 h03
        split
        · refine bind_steps1 N _ _ σ3 (steps_refl h03) ?_
          intro y σk hmk hk
          exact htail y σk hk
        · refine bind_steps1 N _ _ σ3 (steps_of_eq (foldlM_state _ (fun b x σc => by
            split
            · rfl
            · show (SM.bind _ _ σc).2 = σc
              unfold SM.bind
              rcases hcv : convertSubschemaValue x.2 path with e | v <;> rfl) _ _ σ3) h03) ?_
          intro fieldsMap σ4 hm4 h04
          rcases mapping <;>
            (refine bind_steps1 N _ _ σ4 (steps_refl h04) ?_
             intro y σk hmk hk
             exact htail y σk hk)
      · split
        · refine bind_steps1 N _ _ σ1 ((ih N).2 ei (ds, es).1 a path σ1 h01 haN hds) ?_
          intro y σk hmk hk
          exact htail y σk hk
        · refine bind_steps1 N _ _ σ1 (steps_of_eq rfl h01) ?_
          intro y σk hmk hk
          simp [SM.throw] at hmk
    · intro ei sn a path σ h0 haN hsn
      simp only [convertSubschemaControl]
      split
      · have hfold := foldlM_evolves_inv N
          (fun (_ : List (String × MVal) × Option String) => True)
          (fun acc p => do
            let q ← convertSubschema fuel ei p.2 (if path = "" then p.1 else path ++ "." ++ p.1)
            SM.pure (acc.1 ++ [(p.1, q.1)], q.2 <|> acc.2))
          sn.properties ?hfo
        case hfo =>
          intro b x hx σc
          have hx2 : N ≤ x.2 := hsn x.2 (by
            simp only [nodeChildren, List.mem_append, List.mem_map]
            exact Or.inl (Or.inl ⟨x, hx, rfl⟩))
          constructor
          · intro hc
            refine bind_steps1 N _ _ σc ((ih N).1 ei x.2 _ σc hc hx2) ?_
            intro q σd hmq h0d
            exact steps_refl h0d
          · intro r σ' heq hc htr
            trivial
        refine bind_steps1 N _ _ σ ((hfold ([], none) σ).1 h0) ?_
        intro pr σp hmf h0p
        split <;> exact steps_refl h0p
      · split
        · rcases hel : sn.elements with _ | ea
          · exact steps_refl h0
          · exact (ih N).1 ei ea path σ h0 (hsn ea (by simp [nodeChildren, hel]))
        · split
          · split <;> exact steps_refl h0
          · split
            · refine bind_steps1 N _ _ σ (steps_of_eq (hasSubfields_state fuel a σ) h0) ?_
              intro indexed σh hmh h0h
              split <;> exact steps_refl h0h
            · split
              · exact steps_refl h0
              · exact steps_refl h0

end SchemaClaims6

section SchemaClaims7

open SchemaConv

/-- C10. For every schema heap and every extra-index list, `convertSchema`
leaves the schema object passed to it observationally unchanged: it
deep-copies the schema data before the conversion rewrites per-field
`index` values in place, so in a well-formed heap every address allocated
before the call still reads the same node after the call (repeating the
call on a shared schema cannot corrupt it). -/
theorem c10 (fuel : Nat) (ei : List ExtraIdx) (opts : ConvOptions) (rootAddr : Nat)
    (σ : Store) (hwf : WfHeap σ) :
    ∀ x, x < σ.next → ((convertSchema fuel ei opts rootAddr σ).2).mem x = σ.mem x := by
  have h0 : HInv σ.next σ := by
    refine ⟨Nat.le_refl _, ?_, hwf⟩
    intro a nd hmem haN c hc
    rw [hwf a haN] at hmem
    cases hmem
  have hsteps : Steps σ.next σ ((convertSchema fuel ei opts rootAddr σ).2) := by
    unfold convertSchema
    refine bind_steps1 σ.next (deepCopy fuel rootAddr) _ σ
      ((deepCopy_steps fuel σ.next rootAddr σ h0).1) ?_
    intro copy σ1 hmc h01
    have hcopy : σ.next ≤ copy := (deepCopy_steps fuel σ.next rootAddr σ h0).2 copy σ1 hmc
    refine bind_steps1 σ.next (SM.read copy) _ σ1 (read_steps copy h01) ?_
    intro rootNode σ2 hm2 h02
    obtain ⟨hmem2, hσ2⟩ := read_ok hm2
    rw [hσ2]
    split
    · exact steps_refl h01
    · refine bind_steps1 σ.next (convertSubschema fuel ei copy "") _ σ1
        ((convert_steps fuel σ.next).1 ei copy "" σ1 h01 hcopy) ?_
      intro p σ3 hm3 h03
      rcases p with ⟨mapping, idf⟩
      exact steps_refl h03
  intro x hx
  exact hsteps.1 x hx

/-- Witness: on the concrete two-node schema heap, `convertSchema` leaves
both original nodes (the root object and its string field) unchanged. -/
theorem c10_witness :
    WfHeap exStore ∧
    ((convertSchema 10 [] {} 1 exStore).2).mem 1 = exStore.mem 1 ∧
    ((convertSchema 10 [] {} 1 exStore).2).mem 2 = exStore.mem 2 := by
  have hwf : WfHeap exStore := by
    intro a ha
    have h1 : ¬ a = 1 := by
      simp only [exStore] at ha
      omega
    have h2 : ¬ a = 2 := by
      simp only [exStore] at ha
      omega
    simp [exStore, h1, h2]
  refine ⟨hwf, ?_, ?_⟩
  · exact c10 10 [] {} 1 exStore hwf 1 (by decide)
  · exact c10 10 [] {} 1 exStore hwf 2 (by decide)

end SchemaClaims7
